import Mathlib

/-!
Shallow embedding of the typed-IR core of the `charon` repository
(`src/charon/src/types_utils.rs` together with the data model it operates on):
the recursive type tree, generic-argument containers, trait-instance paths,
the substitution engine and the unification engine, plus the structural
queries and the `SelfId`-replacement rewrite.

The data model follows the definitions actually matched on in
`types_utils.rs`: the region type has the four variants
`Static | Var | Erased | Unknown`, `Ty` has an `Arrow` variant, and
`TraitInstanceId` has the `FnPointer`/`Unsolved` variants (all of these are
matched exhaustively in `types_utils.rs`).

Rust `HashMap`s are modelled as association lists with first-match lookup
(inserting at the head shadows older entries, which matches
`HashMap::insert` overwriting).  Fallible operations (code whose closures
call `.unwrap()`, or `assert!` invocations) are modelled with `Option`,
`none` standing for the panic.
-/

namespace Charon

/-- `Region` as used in `types_utils.rs` (`Static | Var | Erased | Unknown`). -/
inductive Region where
  | Static : Region
  | Var : Nat → Region
  | Erased : Region
  | Unknown : Region
deriving DecidableEq, Repr

/-- Integer types (from `types.rs`, enum `IntegerTy`). -/
inductive IntegerTy where
  | Isize | I8 | I16 | I32 | I64 | I128
  | Usize | U8 | U16 | U32 | U64 | U128
deriving DecidableEq, Repr

/-- Reference kinds (from `types.rs`, enum `RefKind`). -/
inductive RefKind where
  | Mut | Shared
deriving DecidableEq, Repr

/-- Literal types (from `types.rs`, enum `LiteralTy`). -/
inductive LiteralTy where
  | Integer : IntegerTy → LiteralTy
  | Bool : LiteralTy
  | Char : LiteralTy
deriving DecidableEq, Repr

/-- Assumed types (from `types.rs`, enum `AssumedTy`). -/
inductive AssumedTy where
  | Box | Vec | Option | Range | PtrUnique | PtrNonNull | Array | Slice | Str
deriving DecidableEq, Repr

/-- Type identifiers (from `types.rs`, enum `TypeId`). -/
inductive TypeId where
  | Adt : Nat → TypeId
  | Tuple : TypeId
  | Assumed : AssumedTy → TypeId
deriving DecidableEq, Repr

/-- Literal values.  Modelled from the spec: `values.rs` is not under `src/`;
the spec (§3, "Types of primitive values") says a literal is a scalar value,
a bool or a char.  Only decidable equality of literals matters to the code
under verification (`unify_const_generics` compares them). -/
inductive Literal where
  | Scalar : Int → Literal
  | Bool : Bool → Literal
  | Char : Nat → Literal
deriving DecidableEq, Repr

/-- Const generic values (from `types.rs`, enum `ConstGeneric`). -/
inductive ConstGeneric where
  | Global : Nat → ConstGeneric
  | Var : Nat → ConstGeneric
  | Value : Literal → ConstGeneric
deriving DecidableEq, Repr

mutual

/-- The type tree (from `types.rs` / `types_utils.rs`, enum `Ty`; the
variant list including `Arrow` is the one matched in `types_utils.rs`). -/
inductive Ty where
  | Adt : TypeId → GenericArgs → Ty
  | TypeVar : Nat → Ty
  | Literal : LiteralTy → Ty
  | Never : Ty
  | Ref : Region → Ty → RefKind → Ty
  | RawPtr : Ty → RefKind → Ty
  | TraitType : TraitRef → GenericArgs → String → Ty
  | Arrow : List Ty → Ty → Ty

/-- Generic arguments (from `types.rs`, struct `GenericArgs`):
`regions`, `types`, `const_generics`, `trait_refs`, in declared order. -/
inductive GenericArgs where
  | mk : List Region → List Ty → List ConstGeneric → List TraitRef → GenericArgs

/-- A reference to a trait (from `types.rs`, struct `TraitRef`):
`trait_id`, `generics`, `trait_decl_ref`. -/
inductive TraitRef where
  | mk : TraitInstanceId → GenericArgs → TraitDeclRef → TraitRef

/-- A reference to a trait declaration (from `types.rs`, struct
`TraitDeclRef`): `trait_id`, `generics`. -/
inductive TraitDeclRef where
  | mk : Nat → GenericArgs → TraitDeclRef

/-- Trait instance paths (from `types.rs` / `types_utils.rs`, enum
`TraitInstanceId`; the variant list including `FnPointer` and `Unsolved`
is the one matched exhaustively in `types_utils.rs`). -/
inductive TraitInstanceId where
  | SelfId : TraitInstanceId
  | TraitImpl : Nat → TraitInstanceId
  | BuiltinOrAuto : Nat → TraitInstanceId
  | Clause : Nat → TraitInstanceId
  | ParentClause : TraitInstanceId → Nat → Nat → TraitInstanceId
  | ItemClause : TraitInstanceId → Nat → String → Nat → TraitInstanceId
  | FnPointer : Ty → TraitInstanceId
  | Unsolved : Nat → GenericArgs → TraitInstanceId
  | Unknown : String → TraitInstanceId

end

/-- Field accessor: `GenericArgs.regions`. -/
def GenericArgs.regions : GenericArgs → List Region
  | .mk r _ _ _ => r

/-- Field accessor: `GenericArgs.types`. -/
def GenericArgs.types : GenericArgs → List Ty
  | .mk _ t _ _ => t

/-- Field accessor: `GenericArgs.const_generics`. -/
def GenericArgs.const_generics : GenericArgs → List ConstGeneric
  | .mk _ _ c _ => c

/-- Field accessor: `GenericArgs.trait_refs`. -/
def GenericArgs.trait_refs : GenericArgs → List TraitRef
  | .mk _ _ _ tr => tr

/-- Field accessor: `TraitRef.trait_id`. -/
def TraitRef.trait_id : TraitRef → TraitInstanceId
  | .mk i _ _ => i

/-- Field accessor: `TraitRef.generics`. -/
def TraitRef.generics : TraitRef → GenericArgs
  | .mk _ g _ => g

/-- Field accessor: `TraitRef.trait_decl_ref`. -/
def TraitRef.trait_decl_ref : TraitRef → TraitDeclRef
  | .mk _ _ d => d

/-- `GenericArgs::empty()` (from `types_utils.rs`). -/
def GenericArgs.empty : GenericArgs := .mk [] [] [] []

/-! ## Substitution engine (`types_utils.rs`, §4.4 of the spec)

`Ty::substitute` and friends take three infallible mapping closures
(`rsubst`, `tsubst`, `cgsubst`) and rebuild the tree. -/

/-- `ConstGeneric::substitute` (from `types_utils.rs`, lines 38–49). -/
def ConstGeneric.substitute (cgsubst : Nat → ConstGeneric) : ConstGeneric → ConstGeneric
  | .Var id => cgsubst id
  | .Value v => .Value v
  | .Global id => .Global id

mutual

/-- `Ty::substitute` (from `types_utils.rs`, lines 1086–1123). -/
def Ty.substitute (rsubst : Region → Region) (tsubst : Nat → Ty)
    (cgsubst : Nat → ConstGeneric) : Ty → Ty
  | .Adt id args => .Adt id (GenericArgs.substitute rsubst tsubst cgsubst args)
  | .TypeVar id => tsubst id
  | .Literal pty => .Literal pty
  | .Never => .Never
  | .Ref rid ty kind => .Ref (rsubst rid) (Ty.substitute rsubst tsubst cgsubst ty) kind
  | .RawPtr ty kind => .RawPtr (Ty.substitute rsubst tsubst cgsubst ty) kind
  | .TraitType tr args name =>
      .TraitType (TraitRef.substitute rsubst tsubst cgsubst tr)
        (GenericArgs.substitute rsubst tsubst cgsubst args) name
  | .Arrow inputs output =>
      .Arrow (Ty.substituteTyList rsubst tsubst cgsubst inputs)
        (Ty.substitute rsubst tsubst cgsubst output)

/-- The `inputs.iter().map(|ty| ty.substitute(..)).collect()` of `Ty::substitute`
and the `types.iter().map(..)` of `GenericArgs::substitute`. -/
def Ty.substituteTyList (rsubst : Region → Region) (tsubst : Nat → Ty)
    (cgsubst : Nat → ConstGeneric) : List Ty → List Ty
  | [] => []
  | t :: ts =>
      Ty.substitute rsubst tsubst cgsubst t :: Ty.substituteTyList rsubst tsubst cgsubst ts

/-- The `trait_refs.iter().map(|x| x.substitute(..)).collect()` of
`GenericArgs::substitute`. -/
def TraitRef.substituteTrList (rsubst : Region → Region) (tsubst : Nat → Ty)
    (cgsubst : Nat → ConstGeneric) : List TraitRef → List TraitRef
  | [] => []
  | t :: ts =>
      TraitRef.substitute rsubst tsubst cgsubst t ::
        TraitRef.substituteTrList rsubst tsubst cgsubst ts

/-- `GenericArgs::substitute` (from `types_utils.rs`, lines 1051–1084); the
regions list goes through `Ty::substitute_regions`, i.e. `map rsubst`. -/
def GenericArgs.substitute (rsubst : Region → Region) (tsubst : Nat → Ty)
    (cgsubst : Nat → ConstGeneric) : GenericArgs → GenericArgs
  | .mk regions types const_generics trait_refs =>
      .mk (regions.map rsubst)
        (Ty.substituteTyList rsubst tsubst cgsubst types)
        (const_generics.map (ConstGeneric.substitute cgsubst))
        (TraitRef.substituteTrList rsubst tsubst cgsubst trait_refs)

/-- `TraitRef::substitute` (from `types_utils.rs`, lines 1019–1034): rebuilds
`generics` and `trait_decl_ref`, keeps `trait_id` (cloned unchanged). -/
def TraitRef.substitute (rsubst : Region → Region) (tsubst : Nat → Ty)
    (cgsubst : Nat → ConstGeneric) : TraitRef → TraitRef
  | .mk tid g d =>
      .mk tid (GenericArgs.substitute rsubst tsubst cgsubst g)
        (TraitDeclRef.substitute rsubst tsubst cgsubst d)

/-- `TraitDeclRef::substitute` (from `types_utils.rs`, lines 1036–1049). -/
def TraitDeclRef.substitute (rsubst : Region → Region) (tsubst : Nat → Ty)
    (cgsubst : Nat → ConstGeneric) : TraitDeclRef → TraitDeclRef
  | .mk tid g => .mk tid (GenericArgs.substitute rsubst tsubst cgsubst g)

end

/-- `Ty::erase_regions` (from `types_utils.rs`, lines 1137–1142):
`substitute(&|_| Region::Erased, &|tid| Ty::TypeVar(tid), &|cgid| ConstGeneric::Var(cgid))`. -/
def Ty.erase_regions (t : Ty) : Ty :=
  Ty.substitute (fun _ => .Erased) (fun tid => .TypeVar tid) (fun cgid => .Var cgid) t

/-! ## Fallible substitution

Several wrappers of `Ty::substitute` pass closures that call
`HashMap::get(..).unwrap()` and hence panic when a variable has no entry
(`substitute_types`, `erase_regions_substitute_types`,
`substitute_regions_types`, and the act of applying a unification result).
`Ty.substituteO` is `Ty::substitute` with fallible mapping closures; `none`
models the panic, which propagates to the whole call. -/

/-- First-match lookup in an association list (models `HashMap::get`). -/
def lookupA {α β : Type} [DecidableEq α] : List (α × β) → α → Option β
  | [], _ => none
  | (k, v) :: m, k' => if k' = k then some v else lookupA m k'

/-- `iter().map(f).collect()` over an `Option`-valued `f`: `none` as soon
as one element fails. -/
def optionMapList {α β : Type} (f : α → Option β) : List α → Option (List β)
  | [] => some []
  | a :: as => do
    let b ← f a
    let bs ← optionMapList f as
    return b :: bs

/-- `ConstGeneric::substitute` with a fallible mapping closure. -/
def ConstGeneric.substituteO (cgsubst : Nat → Option ConstGeneric) :
    ConstGeneric → Option ConstGeneric
  | .Var id => cgsubst id
  | .Value v => some (.Value v)
  | .Global id => some (.Global id)

mutual

/-- `Ty::substitute` with fallible mapping closures. -/
def Ty.substituteO (rsubst : Region → Option Region) (tsubst : Nat → Option Ty)
    (cgsubst : Nat → Option ConstGeneric) : Ty → Option Ty
  | .Adt id args => do
      let args ← GenericArgs.substituteO rsubst tsubst cgsubst args
      return .Adt id args
  | .TypeVar id => tsubst id
  | .Literal pty => some (.Literal pty)
  | .Never => some .Never
  | .Ref rid ty kind => do
      let r ← rsubst rid
      let ty ← Ty.substituteO rsubst tsubst cgsubst ty
      return .Ref r ty kind
  | .RawPtr ty kind => do
      let ty ← Ty.substituteO rsubst tsubst cgsubst ty
      return .RawPtr ty kind
  | .TraitType tr args name => do
      let tr ← TraitRef.substituteO rsubst tsubst cgsubst tr
      let args ← GenericArgs.substituteO rsubst tsubst cgsubst args
      return .TraitType tr args name
  | .Arrow inputs output => do
      let inputs ← Ty.substituteOTyList rsubst tsubst cgsubst inputs
      let output ← Ty.substituteO rsubst tsubst cgsubst output
      return .Arrow inputs output

/-- Fallible map over a list of types. -/
def Ty.substituteOTyList (rsubst : Region → Option Region) (tsubst : Nat → Option Ty)
    (cgsubst : Nat → Option ConstGeneric) : List Ty → Option (List Ty)
  | [] => some []
  | t :: ts => do
      let t ← Ty.substituteO rsubst tsubst cgsubst t
      let ts ← Ty.substituteOTyList rsubst tsubst cgsubst ts
      return t :: ts

/-- Fallible map over a list of trait refs. -/
def TraitRef.substituteOTrList (rsubst : Region → Option Region) (tsubst : Nat → Option Ty)
    (cgsubst : Nat → Option ConstGeneric) : List TraitRef → Option (List TraitRef)
  | [] => some []
  | t :: ts => do
      let t ← TraitRef.substituteO rsubst tsubst cgsubst t
      let ts ← TraitRef.substituteOTrList rsubst tsubst cgsubst ts
      return t :: ts

/-- `GenericArgs::substitute` with fallible mapping closures. -/
def GenericArgs.substituteO (rsubst : Region → Option Region) (tsubst : Nat → Option Ty)
    (cgsubst : Nat → Option ConstGeneric) : GenericArgs → Option GenericArgs
  | .mk regions types const_generics trait_refs => do
      let regions ← optionMapList rsubst regions
      let types ← Ty.substituteOTyList rsubst tsubst cgsubst types
      let const_generics ← optionMapList (ConstGeneric.substituteO cgsubst) const_generics
      let trait_refs ← TraitRef.substituteOTrList rsubst tsubst cgsubst trait_refs
      return .mk regions types const_generics trait_refs

/-- `TraitRef::substitute` with fallible mapping closures: keeps `trait_id`. -/
def TraitRef.substituteO (rsubst : Region → Option Region) (tsubst : Nat → Option Ty)
    (cgsubst : Nat → Option ConstGeneric) : TraitRef → Option TraitRef
  | .mk tid g d => do
      let g ← GenericArgs.substituteO rsubst tsubst cgsubst g
      let d ← TraitDeclRef.substituteO rsubst tsubst cgsubst d
      return .mk tid g d

/-- `TraitDeclRef::substitute` with fallible mapping closures. -/
def TraitDeclRef.substituteO (rsubst : Region → Option Region) (tsubst : Nat → Option Ty)
    (cgsubst : Nat → Option ConstGeneric) : TraitDeclRef → Option TraitDeclRef
  | .mk tid g => do
      let g ← GenericArgs.substituteO rsubst tsubst cgsubst g
      return .mk tid g

end

/-- The region closure of `Ty::substitute_regions_types`
(from `types_utils.rs`, lines 1196–1207): `Static`/`Erased`/`Unknown` are
kept, `Var(rid)` is looked up in `rsubst` (`unwrap` panics on a miss). -/
def substRTregion (rsubst : List (Nat × Region)) : Region → Option Region
  | .Static => some .Static
  | .Erased => some .Erased
  | .Unknown => some .Unknown
  | .Var rid => lookupA rsubst rid

/-- `Ty::substitute_regions_types` (from `types_utils.rs`, lines 1196–1208):
substitute with the region closure `substRTregion`, the type closure
`tsubst.get(tid).unwrap()` and the const-generic closure
`ConstGeneric::Var(cgid)`.  `none` models the panic of the `unwrap`s. -/
def Ty.substitute_regions_types (rsubst : List (Nat × Region))
    (tsubst : List (Nat × Ty)) (t : Ty) : Option Ty :=
  Ty.substituteO (substRTregion rsubst) (fun tid => lookupA tsubst tid)
    (fun cgid => some (.Var cgid)) t

/-! ## Coverage: which lookups does a substitution perform?

`substCoverage` mirrors the traversal of `Ty::substitute` exactly and
checks that every mapping invocation the traversal performs would succeed.
Note the traversal never enters a `TraitRef`'s `trait_id`. -/

mutual

/-- `true` iff every mapping invocation `Ty::substitute` performs on this
tree satisfies the given predicates. -/
def Ty.substCoverage (rsOk : Region → Bool) (tsOk : Nat → Bool)
    (csOk : Nat → Bool) : Ty → Bool
  | .Adt _ args => GenericArgs.substCoverage rsOk tsOk csOk args
  | .TypeVar id => tsOk id
  | .Literal _ => true
  | .Never => true
  | .Ref rid ty _ => rsOk rid && Ty.substCoverage rsOk tsOk csOk ty
  | .RawPtr ty _ => Ty.substCoverage rsOk tsOk csOk ty
  | .TraitType tr args _ =>
      TraitRef.substCoverage rsOk tsOk csOk tr &&
        GenericArgs.substCoverage rsOk tsOk csOk args
  | .Arrow inputs output =>
      Ty.substCoverageTyList rsOk tsOk csOk inputs &&
        Ty.substCoverage rsOk tsOk csOk output

/-- Coverage over a list of types. -/
def Ty.substCoverageTyList (rsOk : Region → Bool) (tsOk : Nat → Bool)
    (csOk : Nat → Bool) : List Ty → Bool
  | [] => true
  | t :: ts =>
      Ty.substCoverage rsOk tsOk csOk t && Ty.substCoverageTyList rsOk tsOk csOk ts

/-- Coverage over a list of trait refs. -/
def TraitRef.substCoverageTrList (rsOk : Region → Bool) (tsOk : Nat → Bool)
    (csOk : Nat → Bool) : List TraitRef → Bool
  | [] => true
  | t :: ts =>
      TraitRef.substCoverage rsOk tsOk csOk t &&
        TraitRef.substCoverageTrList rsOk tsOk csOk ts

/-- Coverage over generic args. -/
def GenericArgs.substCoverage (rsOk : Region → Bool) (tsOk : Nat → Bool)
    (csOk : Nat → Bool) : GenericArgs → Bool
  | .mk regions types const_generics trait_refs =>
      regions.all rsOk &&
        Ty.substCoverageTyList rsOk tsOk csOk types &&
        const_generics.all (fun cg => match cg with
          | .Var id => csOk id
          | _ => true) &&
        TraitRef.substCoverageTrList rsOk tsOk csOk trait_refs

/-- Coverage over a trait ref (the `trait_id` is not traversed). -/
def TraitRef.substCoverage (rsOk : Region → Bool) (tsOk : Nat → Bool)
    (csOk : Nat → Bool) : TraitRef → Bool
  | .mk _ g d =>
      GenericArgs.substCoverage rsOk tsOk csOk g &&
        TraitDeclRef.substCoverage rsOk tsOk csOk d

/-- Coverage over a trait decl ref. -/
def TraitDeclRef.substCoverage (rsOk : Region → Bool) (tsOk : Nat → Bool)
    (csOk : Nat → Bool) : TraitDeclRef → Bool
  | .mk _ g => GenericArgs.substCoverage rsOk tsOk csOk g

end

/-! ## Structural queries (`types_utils.rs`, §4.1 of the spec) -/

/-- `Ty::is_unit` (from `types_utils.rs`, lines 850–861).  The two `assert!`s
on the tuple's `regions` and `const_generics` are modelled by `none`
(the panic). -/
def Ty.is_unit : Ty → Option Bool
  | .Adt .Tuple args =>
      if args.regions.isEmpty then
        if args.const_generics.isEmpty then some args.types.isEmpty
        else none
      else none
  | _ => some false

/-- `Ty::mk_unit` (from `types_utils.rs`, lines 863–866). -/
def Ty.mk_unit : Ty := .Adt .Tuple GenericArgs.empty

/-- `Region::contains_var` (from `types_utils.rs`, lines 76–81);
the `OrdSet` is modelled as a list with membership. -/
def Region.contains_var (rset : List Nat) : Region → Bool
  | .Static => false
  | .Erased => false
  | .Unknown => false
  | .Var id => rset.contains id

mutual

/-- `Ty::contains_region_var` (from `types_utils.rs`, lines 976–999).
Note that in the `TraitType`/`Adt` case the source iterates
`generics.regions.iter().any(|r| r.contains_var(rset) || generics.types.iter().any(..))`
— the descent into `generics.types` sits *inside* the closure over
`generics.regions`, exactly as in the source. -/
def Ty.contains_region_var (rset : List Nat) : Ty → Bool
  | .TypeVar _ => false
  | .Literal _ => false
  | .Never => false
  | .Ref r ty _ => r.contains_var rset || Ty.contains_region_var rset ty
  | .RawPtr ty _ => Ty.contains_region_var rset ty
  | .TraitType _ (.mk regions types _ _) _ =>
      regions.any (fun r =>
        r.contains_var rset || Ty.containsRegionVarList rset types)
  | .Adt _ (.mk regions types _ _) =>
      regions.any (fun r =>
        r.contains_var rset || Ty.containsRegionVarList rset types)
  | .Arrow inputs output =>
      Ty.containsRegionVarList rset inputs || Ty.contains_region_var rset output
termination_by t => sizeOf t

/-- The `generics.types.iter().any(|x| x.contains_region_var(rset))` /
`inputs.iter().any(..)` of `Ty::contains_region_var`. -/
def Ty.containsRegionVarList (rset : List Nat) : List Ty → Bool
  | [] => false
  | t :: ts => Ty.contains_region_var rset t || Ty.containsRegionVarList rset ts
termination_by ts => sizeOf ts

end

/-! ## Unification engine (`types_utils.rs`, §4.5 of the spec)

`TySubst` carries three binding maps; `Result<(), ()>` with `&mut self`
becomes `Option TySubst` (`none` is `Err(())`, and on an error the whole
unification aborts, so the post-error map is never observed). -/

/-- `struct TySubst` (from `types_utils.rs`, lines 1308–1316). -/
structure TySubst where
  ignore_regions : Bool
  regions_map : List (Region × Region)
  type_vars_map : List (Nat × Ty)
  const_generics_map : List (Nat × ConstGeneric)

/-- `TySubst::new` (from `types_utils.rs`, lines 1337–1348): fixes the
static and erased regions, `ignore_regions` is `false`. -/
def TySubst.new : TySubst where
  ignore_regions := false
  regions_map := [(.Static, .Static), (.Erased, .Erased)]
  type_vars_map := []
  const_generics_map := []

/-- `TySubst::unify_regions` (from `types_utils.rs`, lines 1350–1360):
absent key ⇒ insert; present key ⇒ succeed iff already bound to `tgt`. -/
def TySubst.unify_regions (s : TySubst) (src tgt : Region) : Option TySubst :=
  match lookupA s.regions_map src with
  | none => some { s with regions_map := (src, tgt) :: s.regions_map }
  | some src' => if src' = tgt then some s else none

/-- `TySubst::unify_const_generics` (from `types_utils.rs`, lines 1362–1377):
a `Var` source is bound iff absent (`insert(..).is_none()`), even an
identical re-binding fails; otherwise `Global`/`Value` must match exactly. -/
def TySubst.unify_const_generics (s : TySubst) (src tgt : ConstGeneric) :
    Option TySubst :=
  match src with
  | .Var v =>
      match lookupA s.const_generics_map v with
      | none => some { s with const_generics_map := (v, tgt) :: s.const_generics_map }
      | some _ => none
  | .Global g =>
      match tgt with
      | .Global g' => if g = g' then some s else none
      | _ => none
  | .Value val =>
      match tgt with
      | .Value val' => if val = val' then some s else none
      | _ => none

/-- `TySubst::unify_regions_lists` (from `types_utils.rs`, lines 1411–1417). -/
def TySubst.unify_regions_lists (s : TySubst) :
    List Region → List Region → Option TySubst
  | [], [] => some s
  | src :: srcs, tgt :: tgts => do
      let s ← s.unify_regions src tgt
      TySubst.unify_regions_lists s srcs tgts
  | _, _ => none

/-- `TySubst::unify_const_generics_lists` (from `types_utils.rs`,
lines 1419–1429). -/
def TySubst.unify_const_generics_lists (s : TySubst) :
    List ConstGeneric → List ConstGeneric → Option TySubst
  | [], [] => some s
  | src :: srcs, tgt :: tgts => do
      let s ← s.unify_const_generics src tgt
      TySubst.unify_const_generics_lists s srcs tgts
  | _, _ => none

mutual

/-- `TySubst::unify_types` (from `types_utils.rs`, lines 1379–1409).
A `TypeVar` source is bound iff absent (early return), then ground
constructors must match head-wise; unmatched shapes (`TraitType`, `Arrow`,
…) fall to `Err`. -/
def TySubst.unify_types (s : TySubst) (src tgt : Ty) : Option TySubst :=
  match src, tgt with
  | .TypeVar v, tgt =>
      (match lookupA s.type_vars_map v with
       | none => some { s with type_vars_map := (v, tgt) :: s.type_vars_map }
       | some _ => none)
  | .Adt src_id src_args, .Adt tgt_id tgt_args =>
      if src_id = tgt_id then TySubst.unify_args s src_args tgt_args else none
  | .Literal src_l, .Literal tgt_l => if src_l = tgt_l then some s else none
  | .Never, .Never => some s
  | .Ref src_r src_ty src_kind, .Ref tgt_r tgt_ty tgt_kind => do
      let s ← if s.ignore_regions then some s else s.unify_regions src_r tgt_r
      let s ← TySubst.unify_types s src_ty tgt_ty
      if src_kind = tgt_kind then some s else none
  | .RawPtr src_ty src_kind, .RawPtr tgt_ty tgt_kind => do
      let s ← TySubst.unify_types s src_ty tgt_ty
      if src_kind = tgt_kind then some s else none
  | _, _ => none
termination_by sizeOf src

/-- `TySubst::unify_types_lists` (from `types_utils.rs`, lines 1431–1437). -/
def TySubst.unify_types_lists (s : TySubst) : List Ty → List Ty → Option TySubst
  | [], [] => some s
  | src :: srcs, tgt :: tgts => do
      let s ← TySubst.unify_types s src tgt
      TySubst.unify_types_lists s srcs tgts
  | _, _ => none
termination_by srcs => sizeOf srcs

/-- `TySubst::unify_args` (from `types_utils.rs`, lines 1439–1450): regions
(unless `ignore_regions`), then types, then const generics; the `trait_refs`
lists are never touched. -/
def TySubst.unify_args (s : TySubst) : GenericArgs → GenericArgs → Option TySubst
  | .mk src_regions src_types src_const_generics _,
    .mk tgt_regions tgt_types tgt_const_generics _ => do
      let s ← if s.ignore_regions then some s
              else s.unify_regions_lists src_regions tgt_regions
      let s ← TySubst.unify_types_lists s src_types tgt_types
      TySubst.unify_const_generics_lists s src_const_generics tgt_const_generics
termination_by src => sizeOf src

end

/-- `TySubst::unify_args_with_fixed` (from `types_utils.rs`, lines
1453–1472): start from `TySubst::new`, pre-seed identity bindings for the
fixed type / const-generic variables, set `ignore_regions := true`, then
`unify_args`. -/
def TySubst.unify_args_with_fixed (fixed_type_vars : List Nat)
    (fixed_const_generic_vars : List Nat) (src tgt : GenericArgs) :
    Option TySubst :=
  let s := TySubst.new
  let s := fixed_type_vars.foldl
    (fun s v => { s with type_vars_map := (v, Ty.TypeVar v) :: s.type_vars_map }) s
  let s := fixed_const_generic_vars.foldl
    (fun s v =>
      { s with const_generics_map := (v, ConstGeneric.Var v) :: s.const_generics_map }) s
  let s := { s with ignore_regions := true }
  TySubst.unify_args s src tgt

/-- Applying a unification result `M` to a type: `Ty::substitute` with the
three maps of `M`, each lookup's `unwrap` modelled by `Option`. -/
def TySubst.applyTy (s : TySubst) (t : Ty) : Option Ty :=
  Ty.substituteO (fun r => lookupA s.regions_map r)
    (fun v => lookupA s.type_vars_map v)
    (fun v => lookupA s.const_generics_map v) t

/-- Applying a unification result `M` to generic args. -/
def TySubst.applyArgs (s : TySubst) (g : GenericArgs) : Option GenericArgs :=
  GenericArgs.substituteO (fun r => lookupA s.regions_map r)
    (fun v => lookupA s.type_vars_map v)
    (fun v => lookupA s.const_generics_map v) g

/-! ## The `SelfId` replacement rewrite (`types_utils.rs`, lines 1475–1494)

`TraitInstanceIdSelfReplacer` is a `MutTypeVisitor` whose only override is
`visit_trait_instance_id`; the rest of the traversal is the default
recursion of the visitor (`types_utils.rs`, lines 1503–1755).  We model the
in-place mutation as a rewriting function. -/

/-- The overridden `visit_trait_instance_id` of `TraitInstanceIdSelfReplacer`:
`SelfId` becomes `new_id`; `ParentClause`/`ItemClause` recurse into the base;
every other variant (including `FnPointer` and `Unsolved`) is left as is. -/
def selfReplaceTid (new_id : TraitInstanceId) : TraitInstanceId → TraitInstanceId
  | .SelfId => new_id
  | .ParentClause base d cl => .ParentClause (selfReplaceTid new_id base) d cl
  | .ItemClause base d n cl => .ItemClause (selfReplaceTid new_id base) d n cl
  | .TraitImpl id => .TraitImpl id
  | .Clause id => .Clause id
  | .BuiltinOrAuto id => .BuiltinOrAuto id
  | .FnPointer ty => .FnPointer ty
  | .Unsolved id g => .Unsolved id g
  | .Unknown msg => .Unknown msg

mutual

/-- The default `visit_ty` recursion of the mutating visitor, with
`visit_trait_instance_id` overridden to `selfReplaceTid`.  Leaf visits
(ids, literals, regions, names) mutate nothing. -/
def selfReplaceTy (new_id : TraitInstanceId) : Ty → Ty
  | .Adt id args => .Adt id (selfReplaceArgs new_id args)
  | .TypeVar v => .TypeVar v
  | .Literal l => .Literal l
  | .Never => .Never
  | .Ref r ty k => .Ref r (selfReplaceTy new_id ty) k
  | .RawPtr ty k => .RawPtr (selfReplaceTy new_id ty) k
  | .TraitType tr args name =>
      .TraitType (selfReplaceTraitRef new_id tr) (selfReplaceArgs new_id args) name
  | .Arrow inputs output =>
      .Arrow (selfReplaceTyList new_id inputs) (selfReplaceTy new_id output)

/-- `visit_arrow` / the types loop of `visit_generic_args`. -/
def selfReplaceTyList (new_id : TraitInstanceId) : List Ty → List Ty
  | [] => []
  | t :: ts => selfReplaceTy new_id t :: selfReplaceTyList new_id ts

/-- The trait-refs loop of `visit_generic_args`. -/
def selfReplaceTraitRefList (new_id : TraitInstanceId) : List TraitRef → List TraitRef
  | [] => []
  | t :: ts => selfReplaceTraitRef new_id t :: selfReplaceTraitRefList new_id ts

/-- `visit_generic_args`: regions and const generics have no trait-instance
ids and are left unchanged by this visitor. -/
def selfReplaceArgs (new_id : TraitInstanceId) : GenericArgs → GenericArgs
  | .mk regions types const_generics trait_refs =>
      .mk regions (selfReplaceTyList new_id types) const_generics
        (selfReplaceTraitRefList new_id trait_refs)

/-- `visit_trait_ref`: visits `trait_id` (the override), `generics`,
`trait_decl_ref`. -/
def selfReplaceTraitRef (new_id : TraitInstanceId) : TraitRef → TraitRef
  | .mk tid g d =>
      .mk (selfReplaceTid new_id tid) (selfReplaceArgs new_id g)
        (selfReplaceDeclRef new_id d)

/-- `visit_trait_decl_ref`. -/
def selfReplaceDeclRef (new_id : TraitInstanceId) : TraitDeclRef → TraitDeclRef
  | .mk id g => .mk id (selfReplaceArgs new_id g)

end

/-! ## Spec-side structural predicates

These predicates follow the words of the spec/claims, not a specific
source function; they traverse the *whole* tree, including the inside of
`TraitInstanceId` paths. -/

mutual

/-- `true` iff no `TraitInstanceId::SelfId` occurs anywhere in the type,
including inside `FnPointer`/`Unsolved` trait-instance ids. -/
def Ty.noSelfId : Ty → Bool
  | .Adt _ args => GenericArgs.noSelfId args
  | .TypeVar _ => true
  | .Literal _ => true
  | .Never => true
  | .Ref _ ty _ => Ty.noSelfId ty
  | .RawPtr ty _ => Ty.noSelfId ty
  | .TraitType tr args _ => TraitRef.noSelfId tr && GenericArgs.noSelfId args
  | .Arrow inputs output => Ty.noSelfIdList inputs && Ty.noSelfId output

/-- No `SelfId` in a list of types. -/
def Ty.noSelfIdList : List Ty → Bool
  | [] => true
  | t :: ts => Ty.noSelfId t && Ty.noSelfIdList ts

/-- No `SelfId` in a list of trait refs. -/
def TraitRef.noSelfIdList : List TraitRef → Bool
  | [] => true
  | t :: ts => TraitRef.noSelfId t && TraitRef.noSelfIdList ts

/-- No `SelfId` in generic args. -/
def GenericArgs.noSelfId : GenericArgs → Bool
  | .mk _ types _ trait_refs =>
      Ty.noSelfIdList types && TraitRef.noSelfIdList trait_refs

/-- No `SelfId` in a trait ref (including its `trait_id`). -/
def TraitRef.noSelfId : TraitRef → Bool
  | .mk tid g d =>
      TraitInstanceId.noSelfId tid && GenericArgs.noSelfId g && TraitDeclRef.noSelfId d

/-- No `SelfId` in a trait decl ref. -/
def TraitDeclRef.noSelfId : TraitDeclRef → Bool
  | .mk _ g => GenericArgs.noSelfId g

/-- No `SelfId` anywhere in a trait instance id. -/
def TraitInstanceId.noSelfId : TraitInstanceId → Bool
  | .SelfId => false
  | .TraitImpl _ => true
  | .BuiltinOrAuto _ => true
  | .Clause _ => true
  | .ParentClause base _ _ => TraitInstanceId.noSelfId base
  | .ItemClause base _ _ _ => TraitInstanceId.noSelfId base
  | .FnPointer ty => Ty.noSelfId ty
  | .Unsolved _ g => GenericArgs.noSelfId g
  | .Unknown _ => true

end

/-- `true` iff every `SelfId` inside this trait instance id sits on the
`ParentClause`/`ItemClause` spine (the positions `selfReplaceTid` reaches);
`FnPointer`/`Unsolved` components must be entirely `SelfId`-free. -/
def TraitInstanceId.selfIdOnSpine : TraitInstanceId → Bool
  | .SelfId => true
  | .TraitImpl _ => true
  | .BuiltinOrAuto _ => true
  | .Clause _ => true
  | .ParentClause base _ _ => TraitInstanceId.selfIdOnSpine base
  | .ItemClause base _ _ _ => TraitInstanceId.selfIdOnSpine base
  | .FnPointer ty => Ty.noSelfId ty
  | .Unsolved _ g => GenericArgs.noSelfId g
  | .Unknown _ => true

mutual

/-- `true` iff every trait instance id in the type satisfies
`TraitInstanceId.selfIdOnSpine`. -/
def Ty.selfIdOnSpine : Ty → Bool
  | .Adt _ args => GenericArgs.selfIdOnSpine args
  | .TypeVar _ => true
  | .Literal _ => true
  | .Never => true
  | .Ref _ ty _ => Ty.selfIdOnSpine ty
  | .RawPtr ty _ => Ty.selfIdOnSpine ty
  | .TraitType tr args _ => TraitRef.selfIdOnSpine tr && GenericArgs.selfIdOnSpine args
  | .Arrow inputs output => Ty.selfIdOnSpineList inputs && Ty.selfIdOnSpine output

/-- Spine condition over a list of types. -/
def Ty.selfIdOnSpineList : List Ty → Bool
  | [] => true
  | t :: ts => Ty.selfIdOnSpine t && Ty.selfIdOnSpineList ts

/-- Spine condition over a list of trait refs. -/
def TraitRef.selfIdOnSpineList : List TraitRef → Bool
  | [] => true
  | t :: ts => TraitRef.selfIdOnSpine t && TraitRef.selfIdOnSpineList ts

/-- Spine condition over generic args. -/
def GenericArgs.selfIdOnSpine : GenericArgs → Bool
  | .mk _ types _ trait_refs =>
      Ty.selfIdOnSpineList types && TraitRef.selfIdOnSpineList trait_refs

/-- Spine condition over a trait ref. -/
def TraitRef.selfIdOnSpine : TraitRef → Bool
  | .mk tid g d =>
      TraitInstanceId.selfIdOnSpine tid && GenericArgs.selfIdOnSpine g &&
        TraitDeclRef.selfIdOnSpine d

/-- Spine condition over a trait decl ref. -/
def TraitDeclRef.selfIdOnSpine : TraitDeclRef → Bool
  | .mk _ g => GenericArgs.selfIdOnSpine g

end

mutual

/-- `true` iff every region slot anywhere in the type — including regions
inside `FnPointer`/`Unsolved` trait-instance ids — satisfies `p`. -/
def Ty.regionsOkFull (p : Region → Bool) : Ty → Bool
  | .Adt _ args => GenericArgs.regionsOkFull p args
  | .TypeVar _ => true
  | .Literal _ => true
  | .Never => true
  | .Ref r ty _ => p r && Ty.regionsOkFull p ty
  | .RawPtr ty _ => Ty.regionsOkFull p ty
  | .TraitType tr args _ => TraitRef.regionsOkFull p tr && GenericArgs.regionsOkFull p args
  | .Arrow inputs output => Ty.regionsOkFullList p inputs && Ty.regionsOkFull p output

/-- Region predicate over a list of types (full traversal). -/
def Ty.regionsOkFullList (p : Region → Bool) : List Ty → Bool
  | [] => true
  | t :: ts => Ty.regionsOkFull p t && Ty.regionsOkFullList p ts

/-- Region predicate over a list of trait refs (full traversal). -/
def TraitRef.regionsOkFullList (p : Region → Bool) : List TraitRef → Bool
  | [] => true
  | t :: ts => TraitRef.regionsOkFull p t && TraitRef.regionsOkFullList p ts

/-- Region predicate over generic args (full traversal). -/
def GenericArgs.regionsOkFull (p : Region → Bool) : GenericArgs → Bool
  | .mk regions types _ trait_refs =>
      regions.all p && Ty.regionsOkFullList p types &&
        TraitRef.regionsOkFullList p trait_refs

/-- Region predicate over a trait ref (full traversal, entering `trait_id`). -/
def TraitRef.regionsOkFull (p : Region → Bool) : TraitRef → Bool
  | .mk tid g d =>
      TraitInstanceId.regionsOkFull p tid && GenericArgs.regionsOkFull p g &&
        TraitDeclRef.regionsOkFull p d

/-- Region predicate over a trait decl ref (full traversal). -/
def TraitDeclRef.regionsOkFull (p : Region → Bool) : TraitDeclRef → Bool
  | .mk _ g => GenericArgs.regionsOkFull p g

/-- Region predicate over a trait instance id (full traversal). -/
def TraitInstanceId.regionsOkFull (p : Region → Bool) : TraitInstanceId → Bool
  | .SelfId => true
  | .TraitImpl _ => true
  | .BuiltinOrAuto _ => true
  | .Clause _ => true
  | .ParentClause base _ _ => TraitInstanceId.regionsOkFull p base
  | .ItemClause base _ _ _ => TraitInstanceId.regionsOkFull p base
  | .FnPointer ty => Ty.regionsOkFull p ty
  | .Unsolved _ g => GenericArgs.regionsOkFull p g
  | .Unknown _ => true

end

mutual

/-- `true` iff the type carries no region slot and no trait reference:
no `Ref` node, no `TraitType` node, and every nested generic-args has
empty `regions` and `trait_refs` lists. -/
def Ty.rtFree : Ty → Bool
  | .Adt _ args => GenericArgs.rtFree args
  | .TypeVar _ => true
  | .Literal _ => true
  | .Never => true
  | .Ref _ _ _ => false
  | .RawPtr ty _ => Ty.rtFree ty
  | .TraitType _ _ _ => false
  | .Arrow inputs output => Ty.rtFreeList inputs && Ty.rtFree output

/-- Region/trait-ref freeness over a list of types. -/
def Ty.rtFreeList : List Ty → Bool
  | [] => true
  | t :: ts => Ty.rtFree t && Ty.rtFreeList ts

/-- Region/trait-ref freeness over generic args. -/
def GenericArgs.rtFree : GenericArgs → Bool
  | .mk regions types _ trait_refs =>
      regions.isEmpty && Ty.rtFreeList types && trait_refs.isEmpty

end

mutual

/-- The predicate the spec ascribes to `Ty::contains_region_var`: true iff
some `Ref` node, or some region inside the generic-args of a nested
`Adt`/`TraitType` node, carries a region variable in `rset` (the descent
into the args' types is a disjunct of its own, not nested inside the
iteration over the args' regions). -/
def Ty.containsRegionVarSpec (rset : List Nat) : Ty → Bool
  | .TypeVar _ => false
  | .Literal _ => false
  | .Never => false
  | .Ref r ty _ => r.contains_var rset || Ty.containsRegionVarSpec rset ty
  | .RawPtr ty _ => Ty.containsRegionVarSpec rset ty
  | .TraitType _ (.mk regions types _ _) _ =>
      regions.any (Region.contains_var rset) ||
        Ty.containsRegionVarSpecList rset types
  | .Adt _ (.mk regions types _ _) =>
      regions.any (Region.contains_var rset) ||
        Ty.containsRegionVarSpecList rset types
  | .Arrow inputs output =>
      Ty.containsRegionVarSpecList rset inputs ||
        Ty.containsRegionVarSpec rset output

/-- Spec-side region-variable search over a list of types. -/
def Ty.containsRegionVarSpecList (rset : List Nat) : List Ty → Bool
  | [] => false
  | t :: ts =>
      Ty.containsRegionVarSpec rset t || Ty.containsRegionVarSpecList rset ts

end

/-- The spec's "0-arity tuple": an `Adt` with the `Tuple` id and an empty
types list. -/
def Ty.isZeroTuple : Ty → Bool
  | .Adt .Tuple args => args.types.isEmpty
  | _ => false

/-- The tuple invariant `Ty::is_unit` asserts at its top node: if the type
is a tuple `Adt`, its generic args carry no regions and no const generics. -/
def Ty.tupleInvTop : Ty → Bool
  | .Adt .Tuple args => args.regions.isEmpty && args.const_generics.isEmpty
  | _ => true

/-- `true` iff the region slot is the erased marker. -/
def Region.isErased : Region → Bool
  | .Erased => true
  | _ => false

/-- Map extension: every binding of `s₁` is present, with the same value,
in `s₂`.  Unification only ever adds bindings, so all intermediate
substitution states extend each other in this sense. -/
def TySubst.ext (s₁ s₂ : TySubst) : Prop :=
  (∀ k v, lookupA s₁.regions_map k = some v → lookupA s₂.regions_map k = some v) ∧
  (∀ k v, lookupA s₁.type_vars_map k = some v → lookupA s₂.type_vars_map k = some v) ∧
  (∀ k v, lookupA s₁.const_generics_map k = some v → lookupA s₂.const_generics_map k = some v)

/-! # Theorems -/

/-- **C10**: `TraitRef::substitute` rebuilds only the `generics` and
`trait_decl_ref` fields; the `trait_id` field of the result equals the
input's `trait_id`, so anything embedded inside the trait-instance path is
left unsubstituted. -/
theorem trait_ref_substitute_preserves_trait_id
    (rsubst : Region → Region) (tsubst : Nat → Ty)
    (cgsubst : Nat → ConstGeneric) (tr : TraitRef) :
    (TraitRef.substitute rsubst tsubst cgsubst tr).trait_id = tr.trait_id := by
  cases tr with
  | mk tid g d => rfl

/-- **C2**: at `t₀ = Adt(Tuple, { regions: [], types: [Ref(Var 0, Bool, Shared)] })`
the code's `Ty::contains_region_var` answers `false` although a `Ref` node
of `t₀` carries the region variable `0` (the spec-side reading answers
`true`): the descent into the args' types is nested inside the iteration
over the args' regions, so an empty regions list short-circuits it.  The
claim's two concrete examples do hold. -/
theorem contains_region_var_diverges_from_spec :
    Ty.contains_region_var [0]
      (.Adt .Tuple (.mk [] [.Ref (.Var 0) (.Literal .Bool) .Shared] [] [])) = false ∧
    Ty.containsRegionVarSpec [0]
      (.Adt .Tuple (.mk [] [.Ref (.Var 0) (.Literal .Bool) .Shared] [] [])) = true ∧
    Ty.contains_region_var [0] (.Ref (.Var 0) (.Literal .Bool) .Shared) = true ∧
    Ty.contains_region_var [0] (.Literal .Bool) = false := by
  refine ⟨?_, ?_, ?_, ?_⟩
  · simp [Ty.contains_region_var]
  · simp [Ty.containsRegionVarSpec, Ty.containsRegionVarSpecList, Region.contains_var]
  · simp [Ty.contains_region_var, Region.contains_var]
  · simp [Ty.contains_region_var]

/-- **C6 counterexample**: `Ty::is_unit` is not total on every constructible
tree: on the constructible type `Adt(Tuple, { regions: [Static] })` the
`assert!(args.regions.is_empty())` fires, i.e. the call panics. -/
theorem is_unit_panics_on_tuple_with_regions :
    Ty.is_unit (.Adt .Tuple (.mk [.Static] [] [] [])) = none := rfl

/-- **C6 (amended)**: on every type whose top-level node satisfies the tuple
invariant (a tuple `Adt` has empty `regions` and `const_generics`),
`is_unit` does not panic and returns `true` exactly on the 0-arity tuple;
in particular `mk_unit().is_unit()` is `true` and `is_unit` is `false` on
every `Adt` that is not an empty tuple. -/
theorem is_unit_correct_under_tuple_invariant :
    (∀ t : Ty, t.tupleInvTop = true → t.is_unit = some t.isZeroTuple) ∧
    Ty.mk_unit.is_unit = some true := by
  constructor
  · intro t h
    match t with
    | .Adt .Tuple (.mk rs tys cgs trs) =>
        simp [Ty.tupleInvTop, GenericArgs.regions, GenericArgs.const_generics] at h
        simp [Ty.is_unit, Ty.isZeroTuple, GenericArgs.regions, GenericArgs.const_generics,
          GenericArgs.types, h.1, h.2]
    | .Adt (.Adt i) a => rfl
    | .Adt (.Assumed aty) a => rfl
    | .TypeVar v => rfl
    | .Literal l => rfl
    | .Never => rfl
    | .Ref r ty k => rfl
    | .RawPtr ty k => rfl
    | .TraitType tr a n => rfl
    | .Arrow i o => rfl
  · rfl

/-- **C6 witness**: the amended theorem applied to a concrete non-tuple
`Adt`: `is_unit` is `some false` there. -/
theorem is_unit_correct_under_tuple_invariant_witness :
    Ty.is_unit (.Adt (.Adt 7) (.mk [.Static] [] [] [])) =
      some (Ty.isZeroTuple (.Adt (.Adt 7) (.mk [.Static] [] [] []))) :=
  is_unit_correct_under_tuple_invariant.1 _ rfl

/-- **C3**: a source type variable (resp. const-generic variable) that
already has a binding — even to the very same value — makes `unify_types`
(resp. `unify_const_generics`) fail, and unifying source
`Adt(X, [TypeVar 0, TypeVar 0])` against target `Adt(X, [Bool, Char])`
fails. -/
theorem unify_rejects_second_binding :
    (∀ (s : TySubst) (v : Nat) (tgt : Ty),
       (lookupA s.type_vars_map v).isSome = true →
       TySubst.unify_types s (.TypeVar v) tgt = none) ∧
    (∀ (s : TySubst) (v : Nat) (tgt : ConstGeneric),
       (lookupA s.const_generics_map v).isSome = true →
       TySubst.unify_const_generics s (.Var v) tgt = none) ∧
    TySubst.unify_types TySubst.new
      (.Adt (.Adt 0) (.mk [] [.TypeVar 0, .TypeVar 0] [] []))
      (.Adt (.Adt 0) (.mk [] [.Literal .Bool, .Literal .Char] [] [])) = none := by
  refine ⟨?_, ?_, ?_⟩
  · intro s v tgt h
    cases hl : lookupA s.type_vars_map v with
    | none => rw [hl] at h; simp at h
    | some w => simp [TySubst.unify_types, hl]
  · intro s v tgt h
    cases hl : lookupA s.const_generics_map v with
    | none => rw [hl] at h; simp at h
    | some w => simp [TySubst.unify_const_generics, hl]
  · simp [TySubst.unify_types, TySubst.unify_args, TySubst.unify_types_lists,
      TySubst.unify_const_generics_lists, TySubst.unify_regions_lists, TySubst.new, lookupA]

/-- **C3 witness**: both rejection statements applied at concrete inputs
where the variable is already bound to the exact same target value. -/
theorem unify_rejects_second_binding_witness :
    TySubst.unify_types { TySubst.new with type_vars_map := [(0, Ty.Never)] }
      (.TypeVar 0) .Never = none ∧
    TySubst.unify_const_generics
      { TySubst.new with const_generics_map := [(0, ConstGeneric.Global 1)] }
      (.Var 0) (.Global 1) = none :=
  ⟨unify_rejects_second_binding.1 _ 0 .Never rfl,
   unify_rejects_second_binding.2.1 _ 0 (.Global 1) rfl⟩

/-- **C9 (amended)**: the outcome of `unify_args_with_fixed` — the returned
substitution or the failure — depends only on the `regions`, `types` and
`const_generics` components of its two generic-args arguments: the
`trait_refs` components are never read. -/
theorem unify_args_independent_of_trait_refs
    (ftv fcg : List Nat) (r : List Region) (t : List Ty)
    (c : List ConstGeneric) (tr₁ tr₂ : List TraitRef) (r' : List Region)
    (t' : List Ty) (c' : List ConstGeneric) (tr₁' tr₂' : List TraitRef) :
    TySubst.unify_args_with_fixed ftv fcg (.mk r t c tr₁) (.mk r' t' c' tr₁') =
      TySubst.unify_args_with_fixed ftv fcg (.mk r t c tr₂) (.mk r' t' c' tr₂') := by
  simp [TySubst.unify_args_with_fixed, TySubst.unify_args]

/-- **C9 counterexample**: two generic-args lists that differ only in their
`trait_refs` components need not unify successfully: with a repeated source
type variable the unification fails (for a reason independent of the
trait refs). -/
theorem trait_refs_agnostic_unify_can_fail :
    TySubst.unify_args_with_fixed [] []
      (.mk [] [.TypeVar 0, .TypeVar 0] [] [])
      (.mk [] [.TypeVar 0, .TypeVar 0] []
        [.mk (.Clause 0) GenericArgs.empty (.mk 0 GenericArgs.empty)]) = none := by
  simp [TySubst.unify_args_with_fixed, TySubst.unify_args, TySubst.unify_types_lists,
    TySubst.unify_types, TySubst.unify_const_generics_lists, TySubst.new, lookupA]

theorem constGeneric_substitute_id (c : ConstGeneric) :
    ConstGeneric.substitute (fun v => .Var v) c = c := by
  cases c <;> rfl

theorem cgList_map_substitute_id (cgs : List ConstGeneric) :
    cgs.map (ConstGeneric.substitute (fun v => .Var v)) = cgs := by
  induction cgs with
  | nil => rfl
  | cons c cs ih => simp [constGeneric_substitute_id c, ih]

mutual

theorem ty_substitute_id (t : Ty) :
    Ty.substitute (fun r => r) (fun v => .TypeVar v) (fun v => .Var v) t = t := by
  cases t with
  | Adt id args => simp only [Ty.substitute, args_substitute_id]
  | TypeVar v => rfl
  | Literal l => rfl
  | Never => rfl
  | Ref r ty k => simp only [Ty.substitute, ty_substitute_id ty]
  | RawPtr ty k => simp only [Ty.substitute, ty_substitute_id ty]
  | TraitType tr args n =>
      simp only [Ty.substitute, traitRef_substitute_id tr, args_substitute_id args]
  | Arrow ins out =>
      simp only [Ty.substitute, tyList_substitute_id ins, ty_substitute_id out]

theorem tyList_substitute_id (ts : List Ty) :
    Ty.substituteTyList (fun r => r) (fun v => .TypeVar v) (fun v => .Var v) ts = ts := by
  cases ts with
  | nil => rfl
  | cons t ts =>
      simp only [Ty.substituteTyList, ty_substitute_id t, tyList_substitute_id ts]

theorem trList_substitute_id (ts : List TraitRef) :
    TraitRef.substituteTrList (fun r => r) (fun v => .TypeVar v) (fun v => .Var v) ts = ts := by
  cases ts with
  | nil => rfl
  | cons t ts =>
      simp only [TraitRef.substituteTrList, traitRef_substitute_id t, trList_substitute_id ts]

theorem args_substitute_id (g : GenericArgs) :
    GenericArgs.substitute (fun r => r) (fun v => .TypeVar v) (fun v => .Var v) g = g := by
  cases g with
  | mk rs tys cgs trs =>
      simp only [GenericArgs.substitute, List.map_id, List.map_id', tyList_substitute_id tys,
        trList_substitute_id trs, cgList_map_substitute_id cgs]

theorem traitRef_substitute_id (tr : TraitRef) :
    TraitRef.substitute (fun r => r) (fun v => .TypeVar v) (fun v => .Var v) tr = tr := by
  cases tr with
  | mk tid g d =>
      simp only [TraitRef.substitute, args_substitute_id g, declRef_substitute_id d]

theorem declRef_substitute_id (d : TraitDeclRef) :
    TraitDeclRef.substitute (fun r => r) (fun v => .TypeVar v) (fun v => .Var v) d = d := by
  cases d with
  | mk tid g => simp only [TraitDeclRef.substitute, args_substitute_id g]

end

/-- **C4**: substituting with the identity region mapping, the identity
type-variable mapping (`tid ↦ TypeVar tid`) and the identity const-generic
mapping (`cgid ↦ ConstGeneric::Var cgid`) is a no-op on every constructible
`Ty`, `TraitRef` and `GenericArgs` tree. -/
theorem substitute_identity :
    (∀ t : Ty, Ty.substitute (fun r => r) (fun v => .TypeVar v) (fun v => .Var v) t = t) ∧
    (∀ tr : TraitRef,
      TraitRef.substitute (fun r => r) (fun v => .TypeVar v) (fun v => .Var v) tr = tr) ∧
    (∀ g : GenericArgs,
      GenericArgs.substitute (fun r => r) (fun v => .TypeVar v) (fun v => .Var v) g = g) :=
  ⟨ty_substitute_id, traitRef_substitute_id, args_substitute_id⟩

mutual

theorem ty_erase_idem (t : Ty) :
    Ty.substitute (fun _ => .Erased) (fun v => .TypeVar v) (fun v => .Var v)
      (Ty.substitute (fun _ => .Erased) (fun v => .TypeVar v) (fun v => .Var v) t) =
    Ty.substitute (fun _ => .Erased) (fun v => .TypeVar v) (fun v => .Var v) t := by
  cases t with
  | Adt id args => simp only [Ty.substitute, args_erase_idem args]
  | TypeVar v => rfl
  | Literal l => rfl
  | Never => rfl
  | Ref r ty k => simp only [Ty.substitute, ty_erase_idem ty]
  | RawPtr ty k => simp only [Ty.substitute, ty_erase_idem ty]
  | TraitType tr args n =>
      simp only [Ty.substitute, traitRef_erase_idem tr, args_erase_idem args]
  | Arrow ins out =>
      simp only [Ty.substitute, tyList_erase_idem ins, ty_erase_idem out]

theorem tyList_erase_idem (ts : List Ty) :
    Ty.substituteTyList (fun _ => .Erased) (fun v => .TypeVar v) (fun v => .Var v)
      (Ty.substituteTyList (fun _ => .Erased) (fun v => .TypeVar v) (fun v => .Var v) ts) =
    Ty.substituteTyList (fun _ => .Erased) (fun v => .TypeVar v) (fun v => .Var v) ts := by
  cases ts with
  | nil => rfl
  | cons t ts =>
      simp only [Ty.substituteTyList, ty_erase_idem t, tyList_erase_idem ts]

theorem trList_erase_idem (ts : List TraitRef) :
    TraitRef.substituteTrList (fun _ => .Erased) (fun v => .TypeVar v) (fun v => .Var v)
      (TraitRef.substituteTrList (fun _ => .Erased) (fun v => .TypeVar v) (fun v => .Var v) ts) =
    TraitRef.substituteTrList (fun _ => .Erased) (fun v => .TypeVar v) (fun v => .Var v) ts := by
  cases ts with
  | nil => rfl
  | cons t ts =>
      simp only [TraitRef.substituteTrList, traitRef_erase_idem t, trList_erase_idem ts]

theorem args_erase_idem (g : GenericArgs) :
    GenericArgs.substitute (fun _ => .Erased) (fun v => .TypeVar v) (fun v => .Var v)
      (GenericArgs.substitute (fun _ => .Erased) (fun v => .TypeVar v) (fun v => .Var v) g) =
    GenericArgs.substitute (fun _ => .Erased) (fun v => .TypeVar v) (fun v => .Var v) g := by
  cases g with
  | mk rs tys cgs trs =>
      simp only [GenericArgs.substitute, List.map_map, tyList_erase_idem tys,
        trList_erase_idem trs, cgList_map_substitute_id]
      rfl

theorem traitRef_erase_idem (tr : TraitRef) :
    TraitRef.substitute (fun _ => .Erased) (fun v => .TypeVar v) (fun v => .Var v)
      (TraitRef.substitute (fun _ => .Erased) (fun v => .TypeVar v) (fun v => .Var v) tr) =
    TraitRef.substitute (fun _ => .Erased) (fun v => .TypeVar v) (fun v => .Var v) tr := by
  cases tr with
  | mk tid g d =>
      simp only [TraitRef.substitute, args_erase_idem g, declRef_erase_idem d]

theorem declRef_erase_idem (d : TraitDeclRef) :
    TraitDeclRef.substitute (fun _ => .Erased) (fun v => .TypeVar v) (fun v => .Var v)
      (TraitDeclRef.substitute (fun _ => .Erased) (fun v => .TypeVar v) (fun v => .Var v) d) =
    TraitDeclRef.substitute (fun _ => .Erased) (fun v => .TypeVar v) (fun v => .Var v) d := by
  cases d with
  | mk tid g => simp only [TraitDeclRef.substitute, args_erase_idem g]

end

mutual

theorem ty_erase_covered (t : Ty) :
    Ty.substCoverage Region.isErased (fun _ => true) (fun _ => true)
      (Ty.substitute (fun _ => .Erased) (fun v => .TypeVar v) (fun v => .Var v) t) = true := by
  cases t with
  | Adt id args => simp only [Ty.substitute, Ty.substCoverage, args_erase_covered args]
  | TypeVar v => rfl
  | Literal l => rfl
  | Never => rfl
  | Ref r ty k =>
      simp only [Ty.substitute, Ty.substCoverage, ty_erase_covered ty,
        Region.isErased, Bool.and_self]
  | RawPtr ty k => simp only [Ty.substitute, Ty.substCoverage, ty_erase_covered ty]
  | TraitType tr args n =>
      simp only [Ty.substitute, Ty.substCoverage, traitRef_erase_covered tr,
        args_erase_covered args, Bool.and_self]
  | Arrow ins out =>
      simp only [Ty.substitute, Ty.substCoverage, tyList_erase_covered ins,
        ty_erase_covered out, Bool.and_self]

theorem tyList_erase_covered (ts : List Ty) :
    Ty.substCoverageTyList Region.isErased (fun _ => true) (fun _ => true)
      (Ty.substituteTyList (fun _ => .Erased) (fun v => .TypeVar v) (fun v => .Var v) ts) = true := by
  cases ts with
  | nil => rfl
  | cons t ts =>
      simp only [Ty.substituteTyList, Ty.substCoverageTyList, ty_erase_covered t,
        tyList_erase_covered ts, Bool.and_self]

theorem trList_erase_covered (ts : List TraitRef) :
    TraitRef.substCoverageTrList Region.isErased (fun _ => true) (fun _ => true)
      (TraitRef.substituteTrList (fun _ => .Erased) (fun v => .TypeVar v) (fun v => .Var v) ts) = true := by
  cases ts with
  | nil => rfl
  | cons t ts =>
      simp only [TraitRef.substituteTrList, TraitRef.substCoverageTrList,
        traitRef_erase_covered t, trList_erase_covered ts, Bool.and_self]

theorem args_erase_covered (g : GenericArgs) :
    GenericArgs.substCoverage Region.isErased (fun _ => true) (fun _ => true)
      (GenericArgs.substitute (fun _ => .Erased) (fun v => .TypeVar v) (fun v => .Var v) g) = true := by
  cases g with
  | mk rs tys cgs trs =>
      simp only [GenericArgs.substitute, GenericArgs.substCoverage,
        tyList_erase_covered tys, trList_erase_covered trs,
        Bool.and_true, Bool.true_and, List.all_map, List.all_eq_true,
        Bool.and_eq_true]
      refine ⟨fun x _ => rfl, fun x _ => ?_⟩
      cases x <;> rfl

theorem traitRef_erase_covered (tr : TraitRef) :
    TraitRef.substCoverage Region.isErased (fun _ => true) (fun _ => true)
      (TraitRef.substitute (fun _ => .Erased) (fun v => .TypeVar v) (fun v => .Var v) tr) = true := by
  cases tr with
  | mk tid g d =>
      simp only [TraitRef.substitute, TraitRef.substCoverage, args_erase_covered g,
        declRef_erase_covered d, Bool.and_self]

theorem declRef_erase_covered (d : TraitDeclRef) :
    TraitDeclRef.substCoverage Region.isErased (fun _ => true) (fun _ => true)
      (TraitDeclRef.substitute (fun _ => .Erased) (fun v => .TypeVar v) (fun v => .Var v) d) = true := by
  cases d with
  | mk tid g => simp only [TraitDeclRef.substitute, TraitDeclRef.substCoverage, args_erase_covered g]

end

/-- **C5 counterexample**: `erase_regions` does *not* map every region
occurrence in the tree to the erased marker: in the output tree for this
input, a region slot (the `Var 0` sitting inside a `FnPointer`
trait-instance id) is still not erased, because substitution never rewrites
`trait_id` paths. -/
theorem erase_regions_misses_trait_id_regions :
    Ty.regionsOkFull Region.isErased
      (Ty.erase_regions
        (.TraitType
          (.mk (.FnPointer (.Ref (.Var 0) (.Literal .Bool) .Shared))
            GenericArgs.empty (.mk 0 GenericArgs.empty))
          GenericArgs.empty "A")) = false := rfl

/-- **C5 (amended)**: `erase_regions` is idempotent, and every region slot
it visits (every region occurrence outside trait-instance-id paths) is the
erased marker in its output. -/
theorem erase_regions_idempotent :
    (∀ t : Ty, (t.erase_regions).erase_regions = t.erase_regions) ∧
    (∀ t : Ty,
      Ty.substCoverage Region.isErased (fun _ => true) (fun _ => true)
        t.erase_regions = true) :=
  ⟨fun t => ty_erase_idem t, fun t => ty_erase_covered t⟩

theorem selfReplaceTid_noSelfId (c : TraitInstanceId)
    (hc : TraitInstanceId.noSelfId c = true) :
    ∀ tid : TraitInstanceId, TraitInstanceId.selfIdOnSpine tid = true →
      TraitInstanceId.noSelfId (selfReplaceTid c tid) = true
  | .SelfId, _ => by simpa [selfReplaceTid]
  | .TraitImpl id, _ => rfl
  | .BuiltinOrAuto id, _ => rfl
  | .Clause id, _ => rfl
  | .ParentClause b d cl, h => by
      have hb := selfReplaceTid_noSelfId c hc b (by
        simpa [TraitInstanceId.selfIdOnSpine] using h)
      simpa [selfReplaceTid, TraitInstanceId.noSelfId] using hb
  | .ItemClause b d n cl, h => by
      have hb := selfReplaceTid_noSelfId c hc b (by
        simpa [TraitInstanceId.selfIdOnSpine] using h)
      simpa [selfReplaceTid, TraitInstanceId.noSelfId] using hb
  | .FnPointer ty, h => by
      simpa [selfReplaceTid, TraitInstanceId.noSelfId,
        TraitInstanceId.selfIdOnSpine] using h
  | .Unsolved id g, h => by
      simpa [selfReplaceTid, TraitInstanceId.noSelfId,
        TraitInstanceId.selfIdOnSpine] using h
  | .Unknown msg, _ => rfl

mutual

theorem selfReplaceTy_noSelfId (c : TraitInstanceId)
    (hc : TraitInstanceId.noSelfId c = true) :
    ∀ t : Ty, Ty.selfIdOnSpine t = true → Ty.noSelfId (selfReplaceTy c t) = true
  | .Adt id args, h => by
      have := selfReplaceArgs_noSelfId c hc args (by
        simpa [Ty.selfIdOnSpine] using h)
      simpa [selfReplaceTy, Ty.noSelfId] using this
  | .TypeVar v, _ => rfl
  | .Literal l, _ => rfl
  | .Never, _ => rfl
  | .Ref r ty k, h => by
      have := selfReplaceTy_noSelfId c hc ty (by simpa [Ty.selfIdOnSpine] using h)
      simpa [selfReplaceTy, Ty.noSelfId] using this
  | .RawPtr ty k, h => by
      have := selfReplaceTy_noSelfId c hc ty (by simpa [Ty.selfIdOnSpine] using h)
      simpa [selfReplaceTy, Ty.noSelfId] using this
  | .TraitType tr args n, h => by
      have h' : TraitRef.selfIdOnSpine tr = true ∧ GenericArgs.selfIdOnSpine args = true := by
        simpa [Ty.selfIdOnSpine, Bool.and_eq_true] using h
      have h1 := selfReplaceTraitRef_noSelfId c hc tr h'.1
      have h2 := selfReplaceArgs_noSelfId c hc args h'.2
      simp [selfReplaceTy, Ty.noSelfId, h1, h2]
  | .Arrow ins out, h => by
      have h' : Ty.selfIdOnSpineList ins = true ∧ Ty.selfIdOnSpine out = true := by
        simpa [Ty.selfIdOnSpine, Bool.and_eq_true] using h
      have h1 := selfReplaceTyList_noSelfId c hc ins h'.1
      have h2 := selfReplaceTy_noSelfId c hc out h'.2
      simp [selfReplaceTy, Ty.noSelfId, h1, h2]

theorem selfReplaceTyList_noSelfId (c : TraitInstanceId)
    (hc : TraitInstanceId.noSelfId c = true) :
    ∀ ts : List Ty, Ty.selfIdOnSpineList ts = true →
      Ty.noSelfIdList (selfReplaceTyList c ts) = true
  | [], _ => rfl
  | t :: ts, h => by
      have h' : Ty.selfIdOnSpine t = true ∧ Ty.selfIdOnSpineList ts = true := by
        simpa [Ty.selfIdOnSpineList, Bool.and_eq_true] using h
      have h1 := selfReplaceTy_noSelfId c hc t h'.1
      have h2 := selfReplaceTyList_noSelfId c hc ts h'.2
      simp [selfReplaceTyList, Ty.noSelfIdList, h1, h2]

theorem selfReplaceTrList_noSelfId (c : TraitInstanceId)
    (hc : TraitInstanceId.noSelfId c = true) :
    ∀ ts : List TraitRef, TraitRef.selfIdOnSpineList ts = true →
      TraitRef.noSelfIdList (selfReplaceTraitRefList c ts) = true
  | [], _ => rfl
  | t :: ts, h => by
      have h' : TraitRef.selfIdOnSpine t = true ∧ TraitRef.selfIdOnSpineList ts = true := by
        simpa [TraitRef.selfIdOnSpineList, Bool.and_eq_true] using h
      have h1 := selfReplaceTraitRef_noSelfId c hc t h'.1
      have h2 := selfReplaceTrList_noSelfId c hc ts h'.2
      simp [selfReplaceTraitRefList, TraitRef.noSelfIdList, h1, h2]

theorem selfReplaceArgs_noSelfId (c : TraitInstanceId)
    (hc : TraitInstanceId.noSelfId c = true) :
    ∀ g : GenericArgs, GenericArgs.selfIdOnSpine g = true →
      GenericArgs.noSelfId (selfReplaceArgs c g) = true
  | .mk rs tys cgs trs, h => by
      have h' : Ty.selfIdOnSpineList tys = true ∧ TraitRef.selfIdOnSpineList trs = true := by
        simpa [GenericArgs.selfIdOnSpine, Bool.and_eq_true] using h
      have h1 := selfReplaceTyList_noSelfId c hc tys h'.1
      have h2 := selfReplaceTrList_noSelfId c hc trs h'.2
      simp [selfReplaceArgs, GenericArgs.noSelfId, h1, h2]

theorem selfReplaceTraitRef_noSelfId (c : TraitInstanceId)
    (hc : TraitInstanceId.noSelfId c = true) :
    ∀ tr : TraitRef, TraitRef.selfIdOnSpine tr = true →
      TraitRef.noSelfId (selfReplaceTraitRef c tr) = true
  | .mk tid g d, h => by
      have h' : TraitInstanceId.selfIdOnSpine tid = true ∧
          (GenericArgs.selfIdOnSpine g = true ∧ TraitDeclRef.selfIdOnSpine d = true) := by
        simpa [TraitRef.selfIdOnSpine, Bool.and_eq_true, and_assoc] using h
      have h1 := selfReplaceTid_noSelfId c hc tid h'.1
      have h2 := selfReplaceArgs_noSelfId c hc g h'.2.1
      have h3 := selfReplaceDeclRef_noSelfId c hc d h'.2.2
      simp [selfReplaceTraitRef, TraitRef.noSelfId, h1, h2, h3]

theorem selfReplaceDeclRef_noSelfId (c : TraitInstanceId)
    (hc : TraitInstanceId.noSelfId c = true) :
    ∀ d : TraitDeclRef, TraitDeclRef.selfIdOnSpine d = true →
      TraitDeclRef.noSelfId (selfReplaceDeclRef c d) = true
  | .mk id g, h => by
      have h1 := selfReplaceArgs_noSelfId c hc g (by
        simpa [TraitDeclRef.selfIdOnSpine] using h)
      simpa [selfReplaceDeclRef, TraitDeclRef.noSelfId] using h1

end

/-- **C8 (amended)**: running `TraitInstanceIdSelfReplacer` with a
`SelfId`-free replacement id `c` over a tree replaces every `SelfId` that
sits on a trait-instance-id spine (reachable through `ParentClause`/
`ItemClause` bases); if the tree has no `SelfId` hidden inside `FnPointer`
or `Unsolved` components of a trait-instance id, the result contains no
`SelfId` at all. -/
theorem selfid_replacement_complete_on_spine (c : TraitInstanceId) (t : Ty)
    (hc : TraitInstanceId.noSelfId c = true)
    (h : Ty.selfIdOnSpine t = true) :
    Ty.noSelfId (selfReplaceTy c t) = true :=
  selfReplaceTy_noSelfId c hc t h

/-- **C8 witness**: the amended theorem at a concrete tree whose
`trait_id` is `SelfId` and `c = Clause 3`. -/
theorem selfid_replacement_complete_on_spine_witness :
    Ty.noSelfId
      (selfReplaceTy (.Clause 3)
        (.TraitType (.mk .SelfId GenericArgs.empty (.mk 0 GenericArgs.empty))
          GenericArgs.empty "A")) = true :=
  selfid_replacement_complete_on_spine (.Clause 3) _ rfl rfl

/-- **C8 counterexample**: the rewrite is *not* complete on every tree:
with the `SelfId`-free replacement `Clause 3`, a `SelfId` nested inside a
`FnPointer` trait-instance id survives the rewrite, so the result still
contains a `SelfId`. -/
theorem selfid_replacement_misses_fn_pointer :
    TraitInstanceId.noSelfId (.Clause 3) = true ∧
    Ty.noSelfId
      (selfReplaceTy (.Clause 3)
        (.TraitType
          (.mk (.FnPointer
                 (.TraitType (.mk .SelfId GenericArgs.empty (.mk 1 GenericArgs.empty))
                   GenericArgs.empty "B"))
            GenericArgs.empty (.mk 0 GenericArgs.empty))
          GenericArgs.empty "A")) = false :=
  ⟨rfl, rfl⟩

theorem optionMapList_isSome {α β : Type} (f : α → Option β) :
    ∀ l : List α, (optionMapList f l).isSome = l.all fun a => (f a).isSome
  | [] => by simp [optionMapList]
  | a :: as => by
      have ih := optionMapList_isSome f as
      simp only [optionMapList, List.all_cons, ← ih]
      cases hf : f a <;> cases hm : optionMapList f as <;> simp [hf, hm]

theorem cg_substituteO_isSome (cs : Nat → Option ConstGeneric) (cg : ConstGeneric) :
    (ConstGeneric.substituteO cs cg).isSome =
      (match cg with
        | ConstGeneric.Var id => (cs id).isSome
        | _ => true) := by
  cases cg <;> rfl

theorem cgList_substituteO_isSome (cs : Nat → Option ConstGeneric) :
    ∀ cgs : List ConstGeneric,
      (optionMapList (ConstGeneric.substituteO cs) cgs).isSome =
        cgs.all (fun cg => match cg with
          | ConstGeneric.Var id => (cs id).isSome
          | _ => true)
  | [] => rfl
  | cg :: cgs => by
      have ih := cgList_substituteO_isSome cs cgs
      have hcg := cg_substituteO_isSome cs cg
      simp only [optionMapList, List.all_cons, ← ih, ← hcg]
      cases h1 : ConstGeneric.substituteO cs cg <;>
        cases h2 : optionMapList (ConstGeneric.substituteO cs) cgs <;> simp [h1, h2]

mutual

theorem substO_isSome_ty (rs : Region → Option Region) (ts : Nat → Option Ty)
    (cs : Nat → Option ConstGeneric) :
    ∀ t : Ty, (Ty.substituteO rs ts cs t).isSome =
      Ty.substCoverage (fun r => (rs r).isSome) (fun v => (ts v).isSome)
        (fun v => (cs v).isSome) t
  | .Adt id args => by
      have ih := substO_isSome_args rs ts cs args
      simp only [Ty.substituteO, Ty.substCoverage, ← ih]
      cases hg : GenericArgs.substituteO rs ts cs args <;> simp [hg]
  | .TypeVar v => by simp [Ty.substituteO, Ty.substCoverage]
  | .Literal l => rfl
  | .Never => rfl
  | .Ref rid ty k => by
      have ih := substO_isSome_ty rs ts cs ty
      simp only [Ty.substituteO, Ty.substCoverage, ← ih]
      cases hr : rs rid <;> cases ht : Ty.substituteO rs ts cs ty <;> simp [hr, ht]
  | .RawPtr ty k => by
      have ih := substO_isSome_ty rs ts cs ty
      simp only [Ty.substituteO, Ty.substCoverage, ← ih]
      cases ht : Ty.substituteO rs ts cs ty <;> simp [ht]
  | .TraitType tr args n => by
      have ih1 := substO_isSome_traitRef rs ts cs tr
      have ih2 := substO_isSome_args rs ts cs args
      simp only [Ty.substituteO, Ty.substCoverage, ← ih1, ← ih2]
      cases h1 : TraitRef.substituteO rs ts cs tr <;>
        cases h2 : GenericArgs.substituteO rs ts cs args <;> simp [h1, h2]
  | .Arrow ins out => by
      have ih1 := substO_isSome_tyList rs ts cs ins
      have ih2 := substO_isSome_ty rs ts cs out
      simp only [Ty.substituteO, Ty.substCoverage, ← ih1, ← ih2]
      cases h1 : Ty.substituteOTyList rs ts cs ins <;>
        cases h2 : Ty.substituteO rs ts cs out <;> simp [h1, h2]

theorem substO_isSome_tyList (rs : Region → Option Region) (ts : Nat → Option Ty)
    (cs : Nat → Option ConstGeneric) :
    ∀ l : List Ty, (Ty.substituteOTyList rs ts cs l).isSome =
      Ty.substCoverageTyList (fun r => (rs r).isSome) (fun v => (ts v).isSome)
        (fun v => (cs v).isSome) l
  | [] => rfl
  | t :: l => by
      have ih1 := substO_isSome_ty rs ts cs t
      have ih2 := substO_isSome_tyList rs ts cs l
      simp only [Ty.substituteOTyList, Ty.substCoverageTyList, ← ih1, ← ih2]
      cases h1 : Ty.substituteO rs ts cs t <;>
        cases h2 : Ty.substituteOTyList rs ts cs l <;> simp [h1, h2]

theorem substO_isSome_trList (rs : Region → Option Region) (ts : Nat → Option Ty)
    (cs : Nat → Option ConstGeneric) :
    ∀ l : List TraitRef, (TraitRef.substituteOTrList rs ts cs l).isSome =
      TraitRef.substCoverageTrList (fun r => (rs r).isSome) (fun v => (ts v).isSome)
        (fun v => (cs v).isSome) l
  | [] => rfl
  | t :: l => by
      have ih1 := substO_isSome_traitRef rs ts cs t
      have ih2 := substO_isSome_trList rs ts cs l
      simp only [TraitRef.substituteOTrList, TraitRef.substCoverageTrList, ← ih1, ← ih2]
      cases h1 : TraitRef.substituteO rs ts cs t <;>
        cases h2 : TraitRef.substituteOTrList rs ts cs l <;> simp [h1, h2]

theorem substO_isSome_args (rs : Region → Option Region) (ts : Nat → Option Ty)
    (cs : Nat → Option ConstGeneric) :
    ∀ g : GenericArgs, (GenericArgs.substituteO rs ts cs g).isSome =
      GenericArgs.substCoverage (fun r => (rs r).isSome) (fun v => (ts v).isSome)
        (fun v => (cs v).isSome) g
  | .mk regions types cgs trs => by
      have ih1 := substO_isSome_tyList rs ts cs types
      have ih2 := substO_isSome_trList rs ts cs trs
      simp only [GenericArgs.substituteO, GenericArgs.substCoverage, ← ih1, ← ih2,
        ← optionMapList_isSome rs regions,
        ← cgList_substituteO_isSome cs cgs]
      cases h1 : optionMapList rs regions <;>
        cases h2 : Ty.substituteOTyList rs ts cs types <;>
        cases h3 : optionMapList (ConstGeneric.substituteO cs) cgs <;>
        cases h4 : TraitRef.substituteOTrList rs ts cs trs <;>
        simp [h1, h2, h3, h4]

theorem substO_isSome_traitRef (rs : Region → Option Region) (ts : Nat → Option Ty)
    (cs : Nat → Option ConstGeneric) :
    ∀ tr : TraitRef, (TraitRef.substituteO rs ts cs tr).isSome =
      TraitRef.substCoverage (fun r => (rs r).isSome) (fun v => (ts v).isSome)
        (fun v => (cs v).isSome) tr
  | .mk tid g d => by
      have ih1 := substO_isSome_args rs ts cs g
      have ih2 := substO_isSome_declRef rs ts cs d
      simp only [TraitRef.substituteO, TraitRef.substCoverage, ← ih1, ← ih2]
      cases h1 : GenericArgs.substituteO rs ts cs g <;>
        cases h2 : TraitDeclRef.substituteO rs ts cs d <;> simp [h1, h2]

theorem substO_isSome_declRef (rs : Region → Option Region) (ts : Nat → Option Ty)
    (cs : Nat → Option ConstGeneric) :
    ∀ d : TraitDeclRef, (TraitDeclRef.substituteO rs ts cs d).isSome =
      TraitDeclRef.substCoverage (fun r => (rs r).isSome) (fun v => (ts v).isSome)
        (fun v => (cs v).isSome) d
  | .mk id g => by
      have ih := substO_isSome_args rs ts cs g
      simp only [TraitDeclRef.substituteO, TraitDeclRef.substCoverage, ← ih]
      cases h : GenericArgs.substituteO rs ts cs g <;> simp [h]

end

/-- **C7**: `substitute_regions_types` renames each `Region::Var(rid)`
through the region map and keeps `Static`/`Erased` unchanged, and it
reaches its fatal (`unwrap`) branch — modelled by `none` — exactly when
the region map misses some region variable the substitution visits or the
type map misses some visited type variable.  In particular, under the
coverage precondition the call never panics, and a missing entry panics
rather than returning a recoverable error. -/
theorem substitute_regions_types_total_iff_covered
    (rsubst : List (Nat × Region)) (tsubst : List (Nat × Ty)) (t : Ty) :
    substRTregion rsubst .Static = some .Static ∧
    substRTregion rsubst .Erased = some .Erased ∧
    (∀ rid, substRTregion rsubst (.Var rid) = lookupA rsubst rid) ∧
    (Ty.substitute_regions_types rsubst tsubst t).isSome =
      Ty.substCoverage
        (fun r => match r with
          | Region.Var rid => (lookupA rsubst rid).isSome
          | _ => true)
        (fun tid => (lookupA tsubst tid).isSome)
        (fun _ => true) t := by
  refine ⟨rfl, rfl, fun _ => rfl, ?_⟩
  have hr : (fun r => (substRTregion rsubst r).isSome) =
      (fun r => match r with
        | Region.Var rid => (lookupA rsubst rid).isSome
        | _ => true) := by
    funext r
    cases r <;> rfl
  have hc : (fun v => (some (ConstGeneric.Var v) : Option ConstGeneric).isSome) =
      (fun _ : Nat => true) := by
    funext v
    rfl
  rw [Ty.substitute_regions_types,
    substO_isSome_ty (substRTregion rsubst) (fun tid => lookupA tsubst tid)
      (fun cgid => some (.Var cgid)) t, hr, hc]

theorem lookupA_cons_self {α β : Type} [DecidableEq α] (m : List (α × β)) (k : α) (v : β) :
    lookupA ((k, v) :: m) k = some v := by
  simp [lookupA]

theorem lookupA_cons_preserve {α β : Type} [DecidableEq α] {m : List (α × β)} {k : α}
    (h : lookupA m k = none) (v : β) :
    ∀ k' v', lookupA m k' = some v' → lookupA ((k, v) :: m) k' = some v' := by
  intro k' v' h'
  by_cases hk : k' = k
  · subst hk
    rw [h] at h'
    cases h'
  · simpa [lookupA, hk] using h'

theorem TySubst.ext_refl (s : TySubst) : s.ext s :=
  ⟨fun _ _ h => h, fun _ _ h => h, fun _ _ h => h⟩

theorem TySubst.ext_trans {s₁ s₂ s₃ : TySubst} (h₁ : s₁.ext s₂) (h₂ : s₂.ext s₃) :
    s₁.ext s₃ :=
  ⟨fun k v h => h₂.1 k v (h₁.1 k v h),
   fun k v h => h₂.2.1 k v (h₁.2.1 k v h),
   fun k v h => h₂.2.2 k v (h₁.2.2 k v h)⟩

theorem unify_regions_mono {s : TySubst} {a b : Region} {s' : TySubst}
    (h : s.unify_regions a b = some s') :
    s.ext s' ∧ s'.ignore_regions = s.ignore_regions := by
  unfold TySubst.unify_regions at h
  cases hl : lookupA s.regions_map a with
  | none =>
      rw [hl] at h
      injection h with h
      subst h
      exact ⟨⟨lookupA_cons_preserve hl b, fun _ _ h => h, fun _ _ h => h⟩, rfl⟩
  | some c =>
      rw [hl] at h
      dsimp only at h
      by_cases hc : c = b
      · rw [if_pos hc] at h
        injection h with h
        subst h
        exact ⟨s.ext_refl, rfl⟩
      · rw [if_neg hc] at h
        cases h

theorem unify_const_generics_mono {s : TySubst} {a b : ConstGeneric} {s' : TySubst}
    (h : s.unify_const_generics a b = some s') :
    s.ext s' ∧ s'.ignore_regions = s.ignore_regions := by
  cases a with
  | Var v =>
      simp only [TySubst.unify_const_generics] at h
      cases hl : lookupA s.const_generics_map v with
      | none =>
          rw [hl] at h
          injection h with h
          subst h
          exact ⟨⟨fun _ _ h => h, fun _ _ h => h, lookupA_cons_preserve hl b⟩, rfl⟩
      | some c =>
          rw [hl] at h
          cases h
  | Global g =>
      simp only [TySubst.unify_const_generics] at h
      cases b with
      | Global g' =>
          dsimp only at h
          by_cases hg : g = g'
          · rw [if_pos hg] at h
            injection h with h
            subst h
            exact ⟨s.ext_refl, rfl⟩
          · rw [if_neg hg] at h
            cases h
      | Var _ => cases h
      | Value _ => cases h
  | Value val =>
      simp only [TySubst.unify_const_generics] at h
      cases b with
      | Value val' =>
          dsimp only at h
          by_cases hv : val = val'
          · rw [if_pos hv] at h
            injection h with h
            subst h
            exact ⟨s.ext_refl, rfl⟩
          · rw [if_neg hv] at h
            cases h
      | Var _ => cases h
      | Global _ => cases h

theorem unify_regions_lists_mono :
    ∀ {s : TySubst} (as bs : List Region) {s' : TySubst},
      s.unify_regions_lists as bs = some s' →
      s.ext s' ∧ s'.ignore_regions = s.ignore_regions
  | s, [], [], s', h => by
      injection h with h
      subst h
      exact ⟨s.ext_refl, rfl⟩
  | s, [], _ :: _, s', h => by cases h
  | s, _ :: _, [], s', h => by cases h
  | s, a :: as, b :: bs, s', h => by
      simp only [TySubst.unify_regions_lists, Option.bind_eq_bind,
        Option.bind_eq_some] at h
      obtain ⟨s₁, h₁, h₂⟩ := h
      obtain ⟨e₁, i₁⟩ := unify_regions_mono h₁
      obtain ⟨e₂, i₂⟩ := unify_regions_lists_mono as bs h₂
      exact ⟨TySubst.ext_trans e₁ e₂, by rw [i₂, i₁]⟩

theorem unify_const_generics_lists_mono :
    ∀ {s : TySubst} (as bs : List ConstGeneric) {s' : TySubst},
      s.unify_const_generics_lists as bs = some s' →
      s.ext s' ∧ s'.ignore_regions = s.ignore_regions
  | s, [], [], s', h => by
      injection h with h
      subst h
      exact ⟨s.ext_refl, rfl⟩
  | s, [], _ :: _, s', h => by cases h
  | s, _ :: _, [], s', h => by cases h
  | s, a :: as, b :: bs, s', h => by
      simp only [TySubst.unify_const_generics_lists, Option.bind_eq_bind,
        Option.bind_eq_some] at h
      obtain ⟨s₁, h₁, h₂⟩ := h
      obtain ⟨e₁, i₁⟩ := unify_const_generics_mono h₁
      obtain ⟨e₂, i₂⟩ := unify_const_generics_lists_mono as bs h₂
      exact ⟨TySubst.ext_trans e₁ e₂, by rw [i₂, i₁]⟩

mutual

theorem unify_types_mono :
    ∀ (s : TySubst) (src tgt : Ty) (s' : TySubst),
      TySubst.unify_types s src tgt = some s' →
      s.ext s' ∧ s'.ignore_regions = s.ignore_regions
  | s, .TypeVar v, tgt, s', h => by
      simp only [TySubst.unify_types] at h
      cases hl : lookupA s.type_vars_map v with
      | none =>
          rw [hl] at h
          injection h with h
          subst h
          exact ⟨⟨fun _ _ h => h, lookupA_cons_preserve hl tgt, fun _ _ h => h⟩, rfl⟩
      | some w =>
          rw [hl] at h
          cases h
  | s, .Adt src_id src_args, tgt, s', h => by
      cases tgt with
      | Adt tgt_id tgt_args =>
          simp only [TySubst.unify_types] at h
          by_cases hid : src_id = tgt_id
          · rw [if_pos hid] at h
            exact unify_args_mono s src_args tgt_args s' h
          · rw [if_neg hid] at h
            cases h
      | _ => simp [TySubst.unify_types] at h
  | s, .Literal l, tgt, s', h => by
      cases tgt with
      | Literal l' =>
          simp only [TySubst.unify_types] at h
          by_cases hl : l = l'
          · rw [if_pos hl] at h
            injection h with h
            subst h
            exact ⟨s.ext_refl, rfl⟩
          · rw [if_neg hl] at h
            cases h
      | _ => simp [TySubst.unify_types] at h
  | s, .Never, tgt, s', h => by
      cases tgt with
      | Never =>
          simp only [TySubst.unify_types] at h
          injection h with h
          subst h
          exact ⟨s.ext_refl, rfl⟩
      | _ => simp [TySubst.unify_types] at h
  | s, .Ref src_r src_ty src_k, tgt, s', h => by
      cases tgt with
      | Ref tgt_r tgt_ty tgt_k =>
          simp only [TySubst.unify_types] at h
          by_cases hig : s.ignore_regions = true
          · rw [if_pos hig] at h
            simp only [Option.bind_eq_bind, Option.some_bind, Option.bind_eq_some] at h
            obtain ⟨s₂, h₂, h₃⟩ := h
            have step₂ := unify_types_mono s src_ty tgt_ty s₂ h₂
            have step₃ : s' = s₂ := by
              by_cases hk : src_k = tgt_k
              · rw [if_pos hk] at h₃
                injection h₃ with h₃
                exact h₃.symm
              · rw [if_neg hk] at h₃
                cases h₃
            subst step₃
            exact step₂
          · rw [if_neg hig] at h
            simp only [Option.bind_eq_bind, Option.bind_eq_some] at h
            obtain ⟨s₁, h₁, s₂, h₂, h₃⟩ := h
            have step₁ := unify_regions_mono h₁
            have step₂ := unify_types_mono s₁ src_ty tgt_ty s₂ h₂
            have step₃ : s' = s₂ := by
              by_cases hk : src_k = tgt_k
              · rw [if_pos hk] at h₃
                injection h₃ with h₃
                exact h₃.symm
              · rw [if_neg hk] at h₃
                cases h₃
            subst step₃
            exact ⟨TySubst.ext_trans step₁.1 step₂.1, by rw [step₂.2, step₁.2]⟩
      | _ => simp [TySubst.unify_types] at h
  | s, .RawPtr src_ty src_k, tgt, s', h => by
      cases tgt with
      | RawPtr tgt_ty tgt_k =>
          simp only [TySubst.unify_types, Option.bind_eq_bind, Option.bind_eq_some] at h
          obtain ⟨s₂, h₂, h₃⟩ := h
          have step₂ := unify_types_mono s src_ty tgt_ty s₂ h₂
          have step₃ : s' = s₂ := by
            by_cases hk : src_k = tgt_k
            · rw [if_pos hk] at h₃
              injection h₃ with h₃
              exact h₃.symm
            · rw [if_neg hk] at h₃
              cases h₃
          subst step₃
          exact step₂
      | _ => simp [TySubst.unify_types] at h
  | s, .TraitType tr args n, tgt, s', h => by
      simp [TySubst.unify_types] at h
  | s, .Arrow ins out, tgt, s', h => by
      simp [TySubst.unify_types] at h
termination_by s src tgt s' _h => sizeOf src

theorem unify_types_lists_mono :
    ∀ (s : TySubst) (as bs : List Ty) (s' : TySubst),
      TySubst.unify_types_lists s as bs = some s' →
      s.ext s' ∧ s'.ignore_regions = s.ignore_regions
  | s, [], [], s', h => by
      simp only [TySubst.unify_types_lists] at h
      injection h with h
      subst h
      exact ⟨s.ext_refl, rfl⟩
  | s, [], _ :: _, s', h => by simp [TySubst.unify_types_lists] at h
  | s, _ :: _, [], s', h => by simp [TySubst.unify_types_lists] at h
  | s, a :: as, b :: bs, s', h => by
      simp only [TySubst.unify_types_lists, Option.bind_eq_bind, Option.bind_eq_some] at h
      obtain ⟨s₁, h₁, h₂⟩ := h
      obtain ⟨e₁, i₁⟩ := unify_types_mono s a b s₁ h₁
      obtain ⟨e₂, i₂⟩ := unify_types_lists_mono s₁ as bs s' h₂
      exact ⟨TySubst.ext_trans e₁ e₂, by rw [i₂, i₁]⟩
termination_by s as bs s' _h => sizeOf as

theorem unify_args_mono :
    ∀ (s : TySubst) (src tgt : GenericArgs) (s' : TySubst),
      TySubst.unify_args s src tgt = some s' →
      s.ext s' ∧ s'.ignore_regions = s.ignore_regions
  | s, .mk r t c tr, .mk r' t' c' tr', s', h => by
      simp only [TySubst.unify_args] at h
      by_cases hig : s.ignore_regions = true
      · rw [if_pos hig] at h
        simp only [Option.bind_eq_bind, Option.some_bind, Option.bind_eq_some] at h
        obtain ⟨s₂, h₂, h₃⟩ := h
        obtain ⟨e₂, i₂⟩ := unify_types_lists_mono s t t' s₂ h₂
        obtain ⟨e₃, i₃⟩ := unify_const_generics_lists_mono c c' h₃
        exact ⟨TySubst.ext_trans e₂ e₃, by rw [i₃, i₂]⟩
      · rw [if_neg hig] at h
        simp only [Option.bind_eq_bind, Option.bind_eq_some] at h
        obtain ⟨s₁, h₁, s₂, h₂, h₃⟩ := h
        have step₁ := unify_regions_lists_mono r r' h₁
        obtain ⟨e₂, i₂⟩ := unify_types_lists_mono s₁ t t' s₂ h₂
        obtain ⟨e₃, i₃⟩ := unify_const_generics_lists_mono c c' h₃
        exact ⟨TySubst.ext_trans step₁.1 (TySubst.ext_trans e₂ e₃),
          by rw [i₃, i₂, step₁.2]⟩
termination_by s src tgt s' _h => sizeOf src

end

theorem cg_applyO_ext {s₁ s₂ : TySubst} (e : s₁.ext s₂) :
    ∀ a b : ConstGeneric,
      ConstGeneric.substituteO (fun v => lookupA s₁.const_generics_map v) a = some b →
      ConstGeneric.substituteO (fun v => lookupA s₂.const_generics_map v) a = some b
  | .Var v, b, h => e.2.2 v b h
  | .Global g, b, h => h
  | .Value val, b, h => h

theorem cgList_applyO_ext {s₁ s₂ : TySubst} (e : s₁.ext s₂) :
    ∀ as bs : List ConstGeneric,
      optionMapList (ConstGeneric.substituteO (fun v => lookupA s₁.const_generics_map v)) as
        = some bs →
      optionMapList (ConstGeneric.substituteO (fun v => lookupA s₂.const_generics_map v)) as
        = some bs
  | [], bs, h => h
  | a :: as, bs, h => by
      simp only [optionMapList, Option.bind_eq_bind, Option.bind_eq_some] at h
      obtain ⟨b, hb, bs', hbs', heq⟩ := h
      simp only [optionMapList, Option.bind_eq_bind, Option.bind_eq_some]
      exact ⟨b, cg_applyO_ext e a b hb, bs', cgList_applyO_ext e as bs' hbs', heq⟩

mutual

theorem applyTy_ext {s₁ s₂ : TySubst} (e : s₁.ext s₂) :
    ∀ t u : Ty, Ty.rtFree t = true →
      s₁.applyTy t = some u → s₂.applyTy t = some u
  | .Adt id args, u, hf, h => by
      simp only [TySubst.applyTy, Ty.substituteO, Option.bind_eq_bind,
        Option.bind_eq_some] at h ⊢
      obtain ⟨a, ha, heq⟩ := h
      have hf' : GenericArgs.rtFree args = true := by simpa [Ty.rtFree] using hf
      exact ⟨a, applyArgs_ext e args a hf' ha, heq⟩
  | .TypeVar v, u, hf, h => e.2.1 v u h
  | .Literal l, u, hf, h => h
  | .Never, u, hf, h => h
  | .Ref r ty k, u, hf, h => by simp [Ty.rtFree] at hf
  | .RawPtr ty k, u, hf, h => by
      simp only [TySubst.applyTy, Ty.substituteO, Option.bind_eq_bind,
        Option.bind_eq_some] at h ⊢
      obtain ⟨a, ha, heq⟩ := h
      have hf' : Ty.rtFree ty = true := by simpa [Ty.rtFree] using hf
      exact ⟨a, applyTy_ext e ty a hf' ha, heq⟩
  | .TraitType tr args n, u, hf, h => by simp [Ty.rtFree] at hf
  | .Arrow ins out, u, hf, h => by
      simp only [TySubst.applyTy, Ty.substituteO, Option.bind_eq_bind,
        Option.bind_eq_some] at h ⊢
      obtain ⟨as, has, o, ho, heq⟩ := h
      have hf' : Ty.rtFreeList ins = true ∧ Ty.rtFree out = true := by
        simpa [Ty.rtFree, Bool.and_eq_true] using hf
      exact ⟨as, applyTyList_ext e ins as hf'.1 has,
        o, applyTy_ext e out o hf'.2 ho, heq⟩

theorem applyTyList_ext {s₁ s₂ : TySubst} (e : s₁.ext s₂) :
    ∀ (ts : List Ty) (us : List Ty), Ty.rtFreeList ts = true →
      Ty.substituteOTyList (fun r => lookupA s₁.regions_map r)
        (fun v => lookupA s₁.type_vars_map v)
        (fun v => lookupA s₁.const_generics_map v) ts = some us →
      Ty.substituteOTyList (fun r => lookupA s₂.regions_map r)
        (fun v => lookupA s₂.type_vars_map v)
        (fun v => lookupA s₂.const_generics_map v) ts = some us
  | [], us, hf, h => h
  | t :: ts, us, hf, h => by
      simp only [Ty.substituteOTyList, Option.bind_eq_bind, Option.bind_eq_some] at h ⊢
      obtain ⟨u, hu, us', hus', heq⟩ := h
      have hf' : Ty.rtFree t = true ∧ Ty.rtFreeList ts = true := by
        simpa [Ty.rtFreeList, Bool.and_eq_true] using hf
      exact ⟨u, applyTy_ext e t u hf'.1 hu, us', applyTyList_ext e ts us' hf'.2 hus', heq⟩

theorem applyArgs_ext {s₁ s₂ : TySubst} (e : s₁.ext s₂) :
    ∀ (g : GenericArgs) (u : GenericArgs), GenericArgs.rtFree g = true →
      s₁.applyArgs g = some u → s₂.applyArgs g = some u
  | .mk rs tys cgs trs, u, hf, h => by
      have hf' : (rs = [] ∧ Ty.rtFreeList tys = true) ∧ trs = [] := by
        simpa [GenericArgs.rtFree, Bool.and_eq_true, List.isEmpty_iff] using hf
      obtain ⟨⟨rfl, htys⟩, rfl⟩ := hf'
      simp only [TySubst.applyArgs, GenericArgs.substituteO, optionMapList,
        Option.bind_eq_bind, Option.some_bind, Option.bind_eq_some] at h ⊢
      obtain ⟨ts', hts', cs', hcs', heq⟩ := h
      exact ⟨ts', applyTyList_ext e tys ts' htys hts',
        cs', cgList_applyO_ext e cgs cs' hcs', heq⟩

end

theorem unify_cg_sound :
    ∀ (s : TySubst) (a b : ConstGeneric) (s' : TySubst),
      s.unify_const_generics a b = some s' →
      ConstGeneric.substituteO (fun v => lookupA s'.const_generics_map v) a = some b
  | s, .Var v, b, s', h => by
      simp only [TySubst.unify_const_generics] at h
      cases hl : lookupA s.const_generics_map v with
      | none =>
          rw [hl] at h
          injection h with h
          subst h
          simp [ConstGeneric.substituteO, lookupA_cons_self]
      | some c =>
          rw [hl] at h
          cases h
  | s, .Global g, b, s', h => by
      simp only [TySubst.unify_const_generics] at h
      cases b with
      | Global g' =>
          dsimp only at h
          by_cases hg : g = g'
          · subst hg
            rfl
          · rw [if_neg hg] at h
            cases h
      | Var _ => cases h
      | Value _ => cases h
  | s, .Value val, b, s', h => by
      simp only [TySubst.unify_const_generics] at h
      cases b with
      | Value val' =>
          dsimp only at h
          by_cases hv : val = val'
          · subst hv
            rfl
          · rw [if_neg hv] at h
            cases h
      | Var _ => cases h
      | Global _ => cases h

theorem unify_cg_lists_sound :
    ∀ (s : TySubst) (as bs : List ConstGeneric) (s' : TySubst),
      s.unify_const_generics_lists as bs = some s' →
      optionMapList
        (ConstGeneric.substituteO (fun v => lookupA s'.const_generics_map v)) as = some bs
  | s, [], [], s', h => rfl
  | s, [], _ :: _, s', h => by cases h
  | s, _ :: _, [], s', h => by cases h
  | s, a :: as, b :: bs, s', h => by
      simp only [TySubst.unify_const_generics_lists, Option.bind_eq_bind,
        Option.bind_eq_some] at h
      obtain ⟨s₁, h₁, h₂⟩ := h
      have head₁ := unify_cg_sound s a b s₁ h₁
      have e := (unify_const_generics_lists_mono as bs h₂).1
      have head := cg_applyO_ext e a b head₁
      have tail := unify_cg_lists_sound s₁ as bs s' h₂
      simp only [optionMapList, Option.bind_eq_bind, Option.bind_eq_some]
      exact ⟨b, head, bs, tail, rfl⟩

mutual

theorem unify_types_sound :
    ∀ (s : TySubst) (src tgt : Ty) (s' : TySubst),
      s.ignore_regions = true →
      TySubst.unify_types s src tgt = some s' →
      Ty.rtFree src = true → Ty.rtFree tgt = true →
      s'.applyTy src = some tgt
  | s, .TypeVar v, tgt, s', hig, h, hfs, hft => by
      simp only [TySubst.unify_types] at h
      cases hl : lookupA s.type_vars_map v with
      | none =>
          rw [hl] at h
          injection h with h
          subst h
          simp [TySubst.applyTy, Ty.substituteO, lookupA_cons_self]
      | some w =>
          rw [hl] at h
          cases h
  | s, .Adt src_id src_args, tgt, s', hig, h, hfs, hft => by
      cases tgt with
      | Adt tgt_id tgt_args =>
          simp only [TySubst.unify_types] at h
          by_cases hid : src_id = tgt_id
          · rw [if_pos hid] at h
            subst hid
            have hfs' : GenericArgs.rtFree src_args = true := by
              simpa [Ty.rtFree] using hfs
            have hft' : GenericArgs.rtFree tgt_args = true := by
              simpa [Ty.rtFree] using hft
            have hargs := unify_args_sound s src_args tgt_args s' hig h hfs' hft'
            simp only [TySubst.applyTy, Ty.substituteO, Option.bind_eq_bind,
              Option.bind_eq_some]
            exact ⟨tgt_args, hargs, rfl⟩
          · rw [if_neg hid] at h
            cases h
      | _ => simp [TySubst.unify_types] at h
  | s, .Literal l, tgt, s', hig, h, hfs, hft => by
      cases tgt with
      | Literal l' =>
          simp only [TySubst.unify_types] at h
          by_cases hl : l = l'
          · subst hl
            rfl
          · rw [if_neg hl] at h
            cases h
      | _ => simp [TySubst.unify_types] at h
  | s, .Never, tgt, s', hig, h, hfs, hft => by
      cases tgt with
      | Never => rfl
      | _ => simp [TySubst.unify_types] at h
  | s, .Ref src_r src_ty src_k, tgt, s', hig, h, hfs, hft => by
      simp [Ty.rtFree] at hfs
  | s, .RawPtr src_ty src_k, tgt, s', hig, h, hfs, hft => by
      cases tgt with
      | RawPtr tgt_ty tgt_k =>
          simp only [TySubst.unify_types, Option.bind_eq_bind, Option.bind_eq_some] at h
          obtain ⟨s₂, h₂, h₃⟩ := h
          have hk : src_k = tgt_k ∧ s' = s₂ := by
            by_cases hk : src_k = tgt_k
            · rw [if_pos hk] at h₃
              injection h₃ with h₃
              exact ⟨hk, h₃.symm⟩
            · rw [if_neg hk] at h₃
              cases h₃
          obtain ⟨hkk, hss⟩ := hk
          subst hkk
          subst hss
          have hfs' : Ty.rtFree src_ty = true := by simpa [Ty.rtFree] using hfs
          have hft' : Ty.rtFree tgt_ty = true := by simpa [Ty.rtFree] using hft
          have ih := unify_types_sound s src_ty tgt_ty s' hig h₂ hfs' hft'
          simp only [TySubst.applyTy, Ty.substituteO, Option.bind_eq_bind,
            Option.bind_eq_some] at ih ⊢
          exact ⟨tgt_ty, ih, rfl⟩
      | _ => simp [TySubst.unify_types] at h
  | s, .TraitType tr args n, tgt, s', hig, h, hfs, hft => by
      simp [Ty.rtFree] at hfs
  | s, .Arrow ins out, tgt, s', hig, h, hfs, hft => by
      simp [TySubst.unify_types] at h
termination_by s src tgt s' hig h hfs hft => sizeOf src

theorem unify_types_lists_sound :
    ∀ (s : TySubst) (as bs : List Ty) (s' : TySubst),
      s.ignore_regions = true →
      TySubst.unify_types_lists s as bs = some s' →
      Ty.rtFreeList as = true → Ty.rtFreeList bs = true →
      Ty.substituteOTyList (fun r => lookupA s'.regions_map r)
        (fun v => lookupA s'.type_vars_map v)
        (fun v => lookupA s'.const_generics_map v) as = some bs
  | s, [], [], s', hig, h, hfs, hft => rfl
  | s, [], _ :: _, s', hig, h, hfs, hft => by simp [TySubst.unify_types_lists] at h
  | s, _ :: _, [], s', hig, h, hfs, hft => by simp [TySubst.unify_types_lists] at h
  | s, a :: as, b :: bs, s', hig, h, hfs, hft => by
      simp only [TySubst.unify_types_lists, Option.bind_eq_bind, Option.bind_eq_some] at h
      obtain ⟨s₁, h₁, h₂⟩ := h
      have hfs' : Ty.rtFree a = true ∧ Ty.rtFreeList as = true := by
        simpa [Ty.rtFreeList, Bool.and_eq_true] using hfs
      have hft' : Ty.rtFree b = true ∧ Ty.rtFreeList bs = true := by
        simpa [Ty.rtFreeList, Bool.and_eq_true] using hft
      have head₁ := unify_types_sound s a b s₁ hig h₁ hfs'.1 hft'.1
      obtain ⟨e₁, i₁⟩ := unify_types_mono s a b s₁ h₁
      have hig₁ : s₁.ignore_regions = true := by rw [i₁, hig]
      have e₂ := (unify_types_lists_mono s₁ as bs s' h₂).1
      have head : s'.applyTy a = some b := applyTy_ext e₂ a b hfs'.1 head₁
      have tail := unify_types_lists_sound s₁ as bs s' hig₁ h₂ hfs'.2 hft'.2
      simp only [Ty.substituteOTyList, Option.bind_eq_bind, Option.bind_eq_some]
      refine ⟨b, ?_, bs, tail, rfl⟩
      simpa [TySubst.applyTy] using head
termination_by s as bs s' hig h hfs hft => sizeOf as

theorem unify_args_sound :
    ∀ (s : TySubst) (src tgt : GenericArgs) (s' : TySubst),
      s.ignore_regions = true →
      TySubst.unify_args s src tgt = some s' →
      GenericArgs.rtFree src = true → GenericArgs.rtFree tgt = true →
      s'.applyArgs src = some tgt
  | s, .mk r t c tr, .mk r' t' c' tr', s', hig, h, hfs, hft => by
      have hfs' : (r = [] ∧ Ty.rtFreeList t = true) ∧ tr = [] := by
        simpa [GenericArgs.rtFree, Bool.and_eq_true, List.isEmpty_iff] using hfs
      have hft' : (r' = [] ∧ Ty.rtFreeList t' = true) ∧ tr' = [] := by
        simpa [GenericArgs.rtFree, Bool.and_eq_true, List.isEmpty_iff] using hft
      obtain ⟨⟨rfl, hts⟩, rfl⟩ := hfs'
      obtain ⟨⟨rfl, hts'⟩, rfl⟩ := hft'
      simp only [TySubst.unify_args] at h
      rw [if_pos hig] at h
      simp only [Option.bind_eq_bind, Option.some_bind, Option.bind_eq_some] at h
      obtain ⟨s₂, h₂, h₃⟩ := h
      have types₁ := unify_types_lists_sound s t t' s₂ hig h₂ hts hts'
      have e := (unify_const_generics_lists_mono c c' h₃).1
      have types := applyTyList_ext e t t' hts types₁
      have cgs := unify_cg_lists_sound s₂ c c' s' h₃
      simp only [TySubst.applyArgs, GenericArgs.substituteO, optionMapList,
        TraitRef.substituteOTrList, Option.bind_eq_bind, Option.some_bind,
        Option.bind_eq_some]
      exact ⟨t', types, c', cgs, rfl⟩
termination_by s src tgt s' hig h hfs hft => sizeOf src

end

/-- **C1 (amended)**: if `unify_args_with_fixed` with empty fixed-variable
sets succeeds on a source `S` and a target `T` that carry no region slots
and no trait references (no `Ref`/`TraitType` nodes and empty
`regions`/`trait_refs` lists throughout), producing the substitution `M`,
then applying `M` to `S` yields exactly `T`.  (No linearity hypothesis is
needed: success already forces each source variable to be bound exactly
once.) -/
theorem unify_args_with_fixed_sound (S T : GenericArgs) (M : TySubst)
    (h : TySubst.unify_args_with_fixed [] [] S T = some M)
    (hS : S.rtFree = true) (hT : T.rtFree = true) :
    M.applyArgs S = some T := by
  simp only [TySubst.unify_args_with_fixed, List.foldl_nil] at h
  exact unify_args_sound _ S T M rfl h hS hT

/-- **C1 witness**: a concrete run — source `{types: [TypeVar 0]}` against
target `{types: [Bool]}` succeeds with `0 ↦ Bool`, and applying the result
to the source gives the target. -/
theorem unify_args_with_fixed_sound_witness :
    TySubst.unify_args_with_fixed [] [] (GenericArgs.mk [] [.TypeVar 0] [] [])
        (GenericArgs.mk [] [.Literal .Bool] [] []) =
      some ⟨true, [(.Static, .Static), (.Erased, .Erased)], [(0, Ty.Literal .Bool)], []⟩ ∧
    TySubst.applyArgs
        ⟨true, [(.Static, .Static), (.Erased, .Erased)], [(0, Ty.Literal .Bool)], []⟩
        (GenericArgs.mk [] [.TypeVar 0] [] []) =
      some (GenericArgs.mk [] [.Literal .Bool] [] []) := by
  have hrun : TySubst.unify_args_with_fixed [] [] (GenericArgs.mk [] [.TypeVar 0] [] [])
      (GenericArgs.mk [] [.Literal .Bool] [] []) =
      some ⟨true, [(.Static, .Static), (.Erased, .Erased)], [(0, Ty.Literal .Bool)], []⟩ := by
    simp [TySubst.unify_args_with_fixed, TySubst.unify_args, TySubst.unify_types_lists,
      TySubst.unify_types, TySubst.unify_const_generics_lists, TySubst.new, lookupA]
  exact ⟨hrun, unify_args_with_fixed_sound _ _ _ hrun rfl rfl⟩

/-- **C1 counterexample**: the claim fails as stated: with the linear
source `{regions: [Static]}` and the ground target `{regions: []}`,
`unify_args_with_fixed` succeeds (it skips regions entirely since
`ignore_regions` is set), yet applying the resulting substitution to the
source does not give the target. -/
theorem unify_args_with_fixed_not_sound_on_regions :
    (TySubst.unify_args_with_fixed [] []
      (.mk [.Static] [] [] []) (.mk [] [] [] [])).isSome = true ∧
    (TySubst.unify_args_with_fixed [] []
        (.mk [.Static] [] [] []) (.mk [] [] [] [])).bind
      (fun M => M.applyArgs (.mk [.Static] [] [] [])) ≠
      some (GenericArgs.mk [] [] [] []) := by
  have hrun : TySubst.unify_args_with_fixed [] []
      (GenericArgs.mk [.Static] [] [] []) (GenericArgs.mk [] [] [] []) =
      some ⟨true, [(.Static, .Static), (.Erased, .Erased)], [], []⟩ := by
    simp [TySubst.unify_args_with_fixed, TySubst.unify_args, TySubst.unify_types_lists,
      TySubst.unify_const_generics_lists, TySubst.new]
  rw [hrun]
  constructor
  · rfl
  · simp [TySubst.applyArgs, GenericArgs.substituteO, optionMapList,
      Ty.substituteOTyList, TraitRef.substituteOTrList, lookupA]

end Charon
